import Mathlib

/-!
Verification development for the Wealth-app portfolio accounting core.

The JavaScript sources embedded here (shallowly, over exact rational
arithmetic) are:
- the sheet-level FIFO engine processFifo (Sheets_Trading.js),
- the numeric parser parseMyFloat (Sheets_TaxOptimization.js),
- the shared normalizer cleanNumber / normalizeData, the portfolio engine
  calculatePortfolioStats, the fiscal engine calculateFiscalReportDetails,
  the tax-basket engine calculateZainettoReport and the historical
  reconstruction loop of PORTFOLIO_EVOLUZIONE (file Sheets_Taxes and
  RealGains.js).

Modelling conventions, used throughout:
- JavaScript numbers are modelled as exact rationals; the Number.toFixed
  roundings that the sources apply to share quantities are modelled
  exactly by roundTo below (ties round up, as specified for toFixed).
- JavaScript Date values are modelled by JsDate, a calendar year plus an
  ordinal within the year, ordered lexicographically; formatDate with
  pattern yyyy is the .year projection.
- A JavaScript Map is modelled by an association list with JS Map
  semantics: set updates in place or appends, delete removes the key,
  iteration follows insertion order.
- Spreadsheet cell contents are modelled by JSVal (a number, a string or
  an empty cell).
-/

set_option allowUnsafeReducibility true in
attribute [semireducible] Rat.add Rat.sub Rat.mul Rat.inv Rat.ofScientific

/-- A JavaScript Date, reduced to the data the sources read from it: the
calendar year and an ordinal giving the position of the instant within
that year.  Comparison of Date objects is modelled by the lexicographic
order on (year, ord). -/
structure JsDate where
  year : Int
  ord : Int
deriving DecidableEq, Repr

/-- Date comparison a <= b, as the numeric comparison of JS timestamps. -/
def dateLe (a b : JsDate) : Bool :=
  a.year < b.year || (a.year = b.year && a.ord ≤ b.ord)

/-- Date comparison a < b. -/
def dateLt (a b : JsDate) : Bool :=
  a.year < b.year || (a.year = b.year && a.ord < b.ord)

/-- Rounding of a rational to the nearest integer with ties rounded
towards positive infinity, as ECMA toFixed does.  Written with integer
euclidean division so that it evaluates by kernel reduction. -/
def qRound (q : ℚ) : ℤ :=
  (q.num * 2 + q.den) / ((q.den : ℤ) * 2)

/-- Number((x).toFixed(p)): rounding of a rational to p decimal places,
ties towards positive infinity. -/
def roundTo (p : ℕ) (q : ℚ) : ℚ :=
  (qRound (q * 10 ^ p) : ℚ) / 10 ^ p

/-- A rational is exact at p decimal places when it is an integer
multiple of 10^(-p).  Such values pass through roundTo p unchanged. -/
def ExactAt (p : ℕ) (q : ℚ) : Prop :=
  ∃ n : ℤ, q * 10 ^ p = n

/-- The content of a spreadsheet cell as seen by the cleaning helpers:
a number, a string, or an empty/absent cell. -/
inductive JSVal where
  | num (q : ℚ)
  | str (s : String)
  | empty
deriving DecidableEq, Repr

/-- JS String.prototype.includes, via the list-infix test on the
underlying character lists. -/
def jsIncludes (s sub : String) : Bool :=
  decide (sub.data <:+: s.data)

/-- Replace the first occurrence of a character, as the non-global
JS String.prototype.replace of a one-character pattern. -/
def replaceFirstChar : List Char → Char → Char → List Char
  | [], _, _ => []
  | c :: rest, a, b => if c = a then b :: rest else c :: replaceFirstChar rest a b

/-- The characters matched by the whitespace class of the regexes used by
the sources (space, tab, newline, carriage return, form feed). -/
def isJsSpace (c : Char) : Bool :=
  c = ' ' || c = '\t' || c = '\n' || c = '\r' || c = '\x0c'

/-- JS String.prototype.toUpperCase, character by character. -/
def jsToUpper (s : String) : String :=
  String.mk (s.data.map Char.toUpper)

/-- JS String.prototype.toLowerCase, character by character. -/
def jsToLower (s : String) : String :=
  String.mk (s.data.map Char.toLower)

/-- JS String.prototype.trim: whitespace removed from both ends. -/
def jsTrim (s : String) : String :=
  String.mk (((s.data.dropWhile (fun c => isJsSpace c)).reverse.dropWhile
    (fun c => isJsSpace c)).reverse)

/-- Value of a list of decimal digit characters. -/
def digitsVal (l : List Char) : ℕ :=
  l.foldl (fun a c => a * 10 + (c.toNat - 48)) 0

/-- Exponent part accepted by parseFloat after an e or E: an optional
sign and digits; a malformed exponent is ignored (exponent 0). -/
def parseExpPart (t : List Char) : ℤ :=
  let p : ℤ × List Char :=
    match t with
    | '-' :: r => (-1, r)
    | '+' :: r => (1, r)
    | _ => (1, t)
  let ed := p.2.takeWhile Char.isDigit
  if ed.isEmpty then 0 else p.1 * (digitsVal ed : ℤ)

/-- Model of the JS builtin parseFloat: reads the longest numeric prefix
(optional sign, integer digits, optional fraction, optional exponent) and
ignores any trailing characters; none models NaN (no digits readable).
The Infinity literals, irrelevant to these sources, are not modelled. -/
def jsParseFloat (s : String) : Option ℚ :=
  let l := s.data.dropWhile (fun c => isJsSpace c)
  let sg : ℚ × List Char :=
    match l with
    | '-' :: t => (-1, t)
    | '+' :: t => (1, t)
    | _ => (1, l)
  let ip := sg.2.takeWhile Char.isDigit
  let l2 := sg.2.dropWhile Char.isDigit
  let fr : List Char × List Char :=
    match l2 with
    | '.' :: t => (t.takeWhile Char.isDigit, t.dropWhile Char.isDigit)
    | _ => ([], l2)
  if ip.isEmpty ∧ fr.1.isEmpty then none
  else
    let mant : ℚ := (digitsVal ip : ℚ) + (digitsVal fr.1 : ℚ) / 10 ^ fr.1.length
    let expo : ℤ :=
      match fr.2 with
      | 'e' :: t => parseExpPart t
      | 'E' :: t => parseExpPart t
      | _ => 0
    some (sg.1 * mant * (10 : ℚ) ^ expo)

/-- JS Map get: the value at a key, if present. -/
def mapFind? {K V : Type} [DecidableEq K] : List (K × V) → K → Option V
  | [], _ => none
  | (a, b) :: rest, k => if a = k then some b else mapFind? rest k

/-- JS Map set: update the entry in place if the key is present,
otherwise append the new entry at the end (insertion order). -/
def mapSet {K V : Type} [DecidableEq K] : List (K × V) → K → V → List (K × V)
  | [], k, v => [(k, v)]
  | (a, b) :: rest, k, v =>
      if a = k then (k, v) :: rest else (a, b) :: mapSet rest k v

/-- JS Map delete: remove the entry at the key. -/
def mapDelete {K V : Type} [DecidableEq K] : List (K × V) → K → List (K × V)
  | [], _ => []
  | (a, b) :: rest, k =>
      if a = k then mapDelete rest k else (a, b) :: mapDelete rest k

/-- The keys of a map, in insertion order. -/
def mapKeys {K V : Type} (m : List (K × V)) : List K :=
  m.map (fun e => e.1)

/-- The string cleaning of parseMyFloat (Sheets_TaxOptimization.js):
the euro sign and whitespace are removed, every dot is removed (treated
as a thousands separator), and the first comma becomes the decimal
point. -/
def parseMyFloatClean (s : String) : String :=
  let l1 := s.data.filter (fun c => !(c == '€' || isJsSpace c))
  let l2 := l1.filter (fun c => !(c == '.'))
  String.mk (replaceFirstChar l2 ',' '.')

/-- parseMyFloat of Sheets_TaxOptimization.js: numbers pass through,
falsy values give 0; a string is cleaned by parseMyFloatClean and the
result is parseFloat with NaN defaulting to 0. -/
def parseMyFloat : JSVal → ℚ
  | .num q => q
  | .empty => 0
  | .str s =>
    if s = "" then 0
    else
      match jsParseFloat (parseMyFloatClean s) with
      | none => 0
      | some q => q

/-- cleanNumber of the fiscal suite: falsy values give 0, numbers pass
through (a numeric 0 hits the falsy check first, with the same result);
a string is trimmed, the literal x means 0, currency signs and whitespace
are removed, then the European branch (both dot and comma present: drop
dots, first comma to dot) or the comma-only branch applies, and the
result is parseFloat with NaN defaulting to 0. -/
def cleanNumber : JSVal → ℚ
  | .num q => q
  | .empty => 0
  | .str s =>
    if s = "" then 0
    else
      let t := jsTrim s
      if t = "" ∨ jsToLower t = "x" then 0
      else
        let l1 := t.data.filter (fun c => !(c == '€' || c == '$' || c == '£' || isJsSpace c))
        let l2 :=
          if l1.contains '.' && l1.contains ',' then
            replaceFirstChar (l1.filter (fun c => !(c == '.'))) ',' '.'
          else if l1.contains ',' then
            replaceFirstChar l1 ',' '.'
          else l1
        match jsParseFloat (String.mk l2) with
        | none => 0
        | some q => q

/-- parseDate: a truthy date cell is taken as is, a falsy one becomes
new Date(), the current instant, passed in explicitly as now. -/
def parseDate (now : JsDate) (d : Option JsDate) : JsDate :=
  d.getD now

/-- The canonical trade record produced by normalizeData. -/
structure Trade where
  date : JsDate
  ticker : String
  action : String
  qty : ℚ
  unitPrice : ℚ
  totalSpent : ℚ
  type : String
deriving DecidableEq, Repr

/-- One raw input row, the i-th entries of the parallel column ranges
passed to normalizeData: date, security, action, quantity, unit price,
spent amount and type columns.  Option models an absent or falsy cell
where the source tests truthiness; the value columns are full cells fed
to cleanNumber. -/
structure RawRow where
  date : Option JsDate
  security : Option String
  action : Option String
  quantity : JSVal
  price : JSVal
  spent : JSVal
  typeCol : Option String
deriving DecidableEq, Repr

/-- The per-row body of the normalizeData loop: none when the row is
skipped (blank security, or a CASH/EUR cash row), otherwise the canonical
trade. A blank action cell defaults to Buy. -/
def normalizeRow (isCryptoMode : Bool) (now : JsDate) (r : RawRow) : Option Trade :=
  match r.security with
  | none => none
  | some sec =>
    if sec = "" then none
    else
      let ticker := sec
      if jsIncludes (jsToUpper ticker) "CASH" || jsIncludes (jsToUpper ticker) "EUR" then none
      else
        let action := match r.action with
          | none => "Buy"
          | some a => if a = "" then "Buy" else a
        let qty := cleanNumber r.quantity
        let date := parseDate now r.date
        let unitPrice := cleanNumber r.price
        if isCryptoMode then
          let rawSpent := cleanNumber r.spent
          let unitPrice1 :=
            if unitPrice = 0 ∧ ¬ qty = 0 ∧ ¬ rawSpent = 0 then rawSpent / qty else unitPrice
          let totalSpent :=
            if rawSpent = 0 ∧ ¬ qty = 0 ∧ ¬ unitPrice1 = 0 then qty * unitPrice1 else rawSpent
          some { date := date, ticker := ticker, action := action, qty := qty,
                 unitPrice := unitPrice1, totalSpent := totalSpent, type := "Crypto" }
        else
          let assetType := match r.typeCol with
            | none => "Stock"
            | some ty => if ty = "" then "Stock" else ty
          let p : ℚ × ℚ :=
            if action = "Dividend" ∨ action = "Dividends" then (unitPrice, 0)
            else (unitPrice * qty, qty)
          some { date := date, ticker := ticker, action := action, qty := p.2,
                 unitPrice := unitPrice, totalSpent := p.1, type := assetType }

/-- The chronological sort applied by normalizeData and re-applied by the
engines: the JS stable sort by the comparator a.date minus b.date,
modelled by a stable insertion sort over the same total preorder (any
two stable sorts with one comparator produce identical output). -/
def sortByDate (l : List Trade) : List Trade :=
  l.insertionSort (fun a b => dateLe a.date b.date)

/-- normalizeData: per-row normalization of the zipped column ranges,
then the chronological sort. -/
def normalizeData (isCryptoMode : Bool) (now : JsDate) (rows : List RawRow) : List Trade :=
  sortByDate (rows.filterMap (normalizeRow isCryptoMode now))


/-- An open lot of the portfolio engine calculatePortfolioStats:
{ shares: trade.qty, price: trade.unitPrice, date: trade.date }. -/
structure Lot where
  shares : ℚ
  price : ℚ
  date : JsDate
deriving DecidableEq, Repr

/-- An open lot of the fiscal engine calculateFiscalReportDetails:
{ shares: trade.qty, price: trade.unitPrice }. -/
structure FLot where
  shares : ℚ
  price : ℚ
deriving DecidableEq, Repr

/-- The FIFO consumption loop shared by calculatePortfolioStats and
calculateFiscalReportDetails, generic in the lot type via the three field
accessors.  Returns the remaining lots, the unconsumed (dropped) sell
volume, and the list of consumed chunks (sharesTaken, lot price) in
order, from which each caller accumulates its own cost and P&L exactly
as the source loop body does.  In the full-consumption branch the source
sets the lot remainder to roundTo prec (shares - roundTo prec shares)
and shifts the lot when that is zero; it is always zero (theorem
roundTo_sub_roundTo), so this embedding shifts the lot directly, which
keeps the recursion structural.  In the partial branch the source loops
once more with sharesToSell = roundTo prec 0 = 0 and exits; the zero is
written directly. -/
def sellLoop {L : Type} (shOf : L → ℚ) (setSh : L → ℚ → L) (prOf : L → ℚ) (prec : ℕ) :
    List L → ℚ → List L × ℚ × List (ℚ × ℚ)
  | [], toSell => ([], toSell, [])
  | lot :: rest, toSell =>
    if 0 < toSell then
      let avail := roundTo prec (shOf lot)
      if avail ≤ toSell then
        let toSell1 := roundTo prec (toSell - avail)
        let r := sellLoop shOf setSh prOf prec rest toSell1
        (r.1, r.2.1, (avail, prOf lot) :: r.2.2)
      else
        let shares1 := roundTo prec (shOf lot - toSell)
        let rest1 := if shares1 = 0 then rest else setSh lot shares1 :: rest
        (rest1, 0, [(toSell, prOf lot)])
    else (lot :: rest, toSell, [])

/-- The buy classification shared by the fiscal-suite engines: one of the
six exact action names, or any action whose upper-case form contains
BUY. -/
def isBuyAction (action : String) : Bool :=
  ["Buy", "DRIP", "REWARD", "STAKING", "MINING", "MINT"].contains action
    || jsIncludes (jsToUpper action) "BUY"

/-- The dividend classification of the fiscal suite. -/
def isDividendAction (action : String) : Bool :=
  action == "Dividend" || action == "Dividends"

/-- Per-trade share precision: 8 decimals for Crypto, 5 otherwise. -/
def tradePrecision (t : String) : ℕ :=
  if t = "Crypto" then 8 else 5

/-- The FIFO sell loop instantiated at the portfolio-engine lot type. -/
def lotSell (prec : ℕ) (lots : List Lot) (toSell : ℚ) : List Lot × ℚ × List (ℚ × ℚ) :=
  sellLoop (fun l => l.shares) (fun l v => { l with shares := v }) (fun l => l.price)
    prec lots toSell

/-- The FIFO sell loop instantiated at the fiscal-engine lot type. -/
def flotSell (prec : ℕ) (lots : List FLot) (toSell : ℚ) : List FLot × ℚ × List (ℚ × ℚ) :=
  sellLoop (fun l => l.shares) (fun l v => { l with shares := v }) (fun l => l.price)
    prec lots toSell

/-- The per-ticker running totals of calculatePortfolioStats.  The source
initializes minBuyPrice to Infinity; none models that initial value. -/
structure TickerStats where
  assetType : String
  tradingPnL : ℚ
  dividends : ℚ
  totalInvestedHistorical : ℚ
  firstBuyDate : Option JsDate
  firstBuyPrice : ℚ
  minBuyPrice : Option ℚ
  maxBuyPrice : ℚ
  maxSellPrice : ℚ
  totalSoldShares : ℚ
  totalSoldRevenue : ℚ
  tradeCount : ℕ
  lastActionDate : Option JsDate
deriving DecidableEq, Repr

/-- The stats object created on first sight of a ticker. -/
def initStats (t : String) : TickerStats :=
  { assetType := t, tradingPnL := 0, dividends := 0, totalInvestedHistorical := 0,
    firstBuyDate := none, firstBuyPrice := 0, minBuyPrice := none, maxBuyPrice := 0,
    maxSellPrice := 0, totalSoldShares := 0, totalSoldRevenue := 0,
    tradeCount := 0, lastActionDate := none }

/-- The mutable state of the calculatePortfolioStats transaction loop:
the portfolio map of open-lot queues and the stats map. -/
structure PortState where
  portfolio : List (String × List Lot)
  stats : List (String × TickerStats)
deriving DecidableEq, Repr

/-- One iteration of the PHASE 1 transaction loop of
calculatePortfolioStats.  The per-chunk P&L accumulation of the source
loop is summed over the consumption chunks, which is the same rational.
-/
def portfolioStep (st : PortState) (trade : Trade) : PortState :=
  let ticker := trade.ticker
  let prec := tradePrecision trade.type
  let s0 := match mapFind? st.stats ticker with
    | none => initStats trade.type
    | some s => s
  let s1 := { s0 with lastActionDate := some trade.date, tradeCount := s0.tradeCount + 1 }
  if isDividendAction trade.action then
    { st with stats := mapSet st.stats ticker { s1 with dividends := s1.dividends + trade.totalSpent } }
  else if isBuyAction trade.action then
    let s2 : TickerStats := if s1.totalInvestedHistorical = 0 then
        { s1 with firstBuyDate := some trade.date, firstBuyPrice := trade.unitPrice }
      else s1
    let s3 : TickerStats := if 0 < trade.unitPrice then
        { s2 with
          minBuyPrice := some (match s2.minBuyPrice with
            | none => trade.unitPrice
            | some m => if trade.unitPrice < m then trade.unitPrice else m),
          maxBuyPrice := if s2.maxBuyPrice < trade.unitPrice then trade.unitPrice
            else s2.maxBuyPrice }
      else s2
    let s4 := { s3 with totalInvestedHistorical := s3.totalInvestedHistorical + trade.totalSpent }
    let lot : Lot := { shares := trade.qty, price := trade.unitPrice, date := trade.date }
    let portfolio1 := match mapFind? st.portfolio ticker with
      | none => mapSet st.portfolio ticker [lot]
      | some lots => mapSet st.portfolio ticker (lots ++ [lot])
    { portfolio := portfolio1, stats := mapSet st.stats ticker s4 }
  else if trade.action = "Sell" then
    let s2 := { s1 with
      maxSellPrice := if s1.maxSellPrice < trade.unitPrice then trade.unitPrice
        else s1.maxSellPrice,
      totalSoldShares := s1.totalSoldShares + trade.qty,
      totalSoldRevenue := s1.totalSoldRevenue + trade.qty * trade.unitPrice }
    match mapFind? st.portfolio ticker with
    | none => { st with stats := mapSet st.stats ticker s2 }
    | some lots =>
      let r := lotSell prec lots (roundTo prec trade.qty)
      let pnl := (r.2.2.map (fun c => c.1 * trade.unitPrice - c.1 * c.2)).sum
      let s3 := { s2 with tradingPnL := s2.tradingPnL + pnl }
      let portfolio1 := if r.1.isEmpty then mapDelete st.portfolio ticker
        else mapSet st.portfolio ticker r.1
      { portfolio := portfolio1, stats := mapSet st.stats ticker s3 }
  else
    { st with stats := mapSet st.stats ticker s1 }

/-- PHASE 1 of calculatePortfolioStats: the chronological sort followed
by the transaction loop. -/
def runPortfolio (allData : List Trade) : PortState :=
  (sortByDate allData).foldl portfolioStep { portfolio := [], stats := [] }

/-- The lots currently held for a ticker, an absent entry reading as the
empty queue. -/
def lotsView (m : List (String × List Lot)) (tk : String) : List Lot :=
  (mapFind? m tk).getD []

/-- PHASE 2 of calculatePortfolioStats, per ticker: currentShares, the
sum of remaining lot shares. -/
def sumShares (lots : List Lot) : ℚ :=
  (lots.map (fun l => l.shares)).sum

/-- PHASE 2 of calculatePortfolioStats, per ticker: currentBookValue, the
sum of shares times price over remaining lots. -/
def sumBookValue (lots : List Lot) : ℚ :=
  (lots.map (fun l => l.shares * l.price)).sum

/-- One data row of the calculateFiscalReportDetails report (the header
row of strings is not modelled; the engine that consumes the report
drops it before use). -/
structure FiscalRow where
  date : JsDate
  year : Int
  ticker : String
  assetType : String
  soldQty : ℚ
  sellPrice : ℚ
  avgBuy : ℚ
  pnl : ℚ
  tax : ℚ
  minus : ℚ
deriving DecidableEq, Repr

/-- The state of the calculateFiscalReportDetails loop. -/
structure FiscState where
  portfolio : List (String × List FLot)
  rows : List FiscalRow
deriving DecidableEq, Repr

/-- One iteration of the calculateFiscalReportDetails loop.  The year
column, Utilities.formatDate(trade.date, tz, yyyy) later parsed back by
parseInt, is the year component of the date; the 26 percent rate is the
exact rational 26/100. -/
def fiscalStep (st : FiscState) (trade : Trade) : FiscState :=
  let ticker := trade.ticker
  let prec := tradePrecision trade.type
  if isBuyAction trade.action then
    let lot : FLot := { shares := trade.qty, price := trade.unitPrice }
    let portfolio1 := match mapFind? st.portfolio ticker with
      | none => mapSet st.portfolio ticker [lot]
      | some lots => mapSet st.portfolio ticker (lots ++ [lot])
    { st with portfolio := portfolio1 }
  else if trade.action = "Sell" then
    match mapFind? st.portfolio ticker with
    | none => st
    | some lots =>
      let r := flotSell prec lots (roundTo prec trade.qty)
      let totalCost := (r.2.2.map (fun c => c.1 * c.2)).sum
      let sharesSold := (r.2.2.map (fun c => c.1)).sum
      let rows1 :=
        if 0 < sharesSold then
          let revenue := sharesSold * trade.unitPrice
          let pnl := revenue - totalCost
          let tax := if 0 < pnl then pnl * (26 / 100) else 0
          let minus := if pnl < 0 then abs pnl else 0
          let avgBuy := totalCost / sharesSold
          st.rows ++ [{ date := trade.date, year := trade.date.year, ticker := ticker,
                        assetType := trade.type, soldQty := sharesSold,
                        sellPrice := trade.unitPrice, avgBuy := avgBuy, pnl := pnl,
                        tax := tax, minus := minus }]
        else st.rows
      let portfolio1 := if r.1.isEmpty then mapDelete st.portfolio ticker
        else mapSet st.portfolio ticker r.1
      { portfolio := portfolio1, rows := rows1 }
  else st

/-- calculateFiscalReportDetails as a state: the chronological sort
followed by the loop, keeping both the report rows and the final lot
queues. -/
def fiscalRun (allData : List Trade) : FiscState :=
  (sortByDate allData).foldl fiscalStep { portfolio := [], rows := [] }

/-- The report returned by calculateFiscalReportDetails (data rows). -/
def calculateFiscalReportDetails (allData : List Trade) : List FiscalRow :=
  (fiscalRun allData).rows


/-- Ascending numeric sort of year keys, as Array.from(keys).sort((a, b)
=> a - b); map keys are distinct, so stability is irrelevant. -/
def sortInts (l : List Int) : List Int :=
  l.insertionSort (fun a b => a ≤ b)

/-- The per-year aggregation record of calculateZainettoReport:
compensable gain, non-compensable gain and loss realized that year. -/
structure YState where
  gainCompensabile : ℚ
  gainNonCompensabile : ℚ
  lossAnno : ℚ
deriving DecidableEq, Repr

/-- One data row of the zainetto report.  The last column, the strategy
notes string, is presentation only and is not modelled. -/
structure ZRow where
  year : Int
  usefulGain : ℚ
  uselessGain : ℚ
  newLosses : ℚ
  basketUsed : ℚ
  basketExpired : ℚ
  netTaxable : ℚ
  tax : ℚ
  residualBasket : ℚ
deriving DecidableEq, Repr

/-- Step 2 of calculateZainettoReport: the yearly dividend totals, keyed
by the dividend year (the source keys by the formatted year string and
parses it back; the year number models both). -/
def zainettoYearlyDividends (allData : List Trade) : List (Int × ℚ) :=
  allData.foldl (fun m d =>
    if isDividendAction d.action then
      mapSet m d.date.year ((mapFind? m d.date.year).getD 0 + d.totalSpent)
    else m) []

/-- Step 3 of calculateZainettoReport: aggregate the fiscal report rows
into per-year stats.  A nonnegative P&L is a gain, non-compensable for
the ETF type; a negative P&L adds its absolute value to the year loss. -/
def zainettoAggregate (rows : List FiscalRow) : List (Int × YState) :=
  rows.foldl (fun m t =>
    let s := (mapFind? m t.year).getD ⟨0, 0, 0⟩
    if 0 ≤ t.pnl then
      if t.assetType = "ETF" then
        mapSet m t.year { s with gainNonCompensabile := s.gainNonCompensabile + t.pnl }
      else
        mapSet m t.year { s with gainCompensabile := s.gainCompensabile + t.pnl }
    else
      mapSet m t.year { s with lossAnno := s.lossAnno + abs t.pnl }) []

/-- Years that only have dividends are added to the stats map with a
zero record. -/
def zainettoAddDividendYears (stats : List (Int × YState)) (divs : List (Int × ℚ)) :
    List (Int × YState) :=
  divs.foldl (fun m e =>
    if (mapFind? m e.1).isSome then m else mapSet m e.1 ⟨0, 0, 0⟩) stats

/-- Block A of the zainetto year transition: walk the basket entries in
ascending origin-year order, skip entries older than four years, draw
each one down by min(available, remainingGain), delete entries drawn to
zero, and stop early when the remaining gain reaches zero.  Returns the
updated bucket, the total used and the remaining gain. -/
def useBasketLoop (year : Int) : List Int → List (Int × ℚ) → ℚ → ℚ →
    List (Int × ℚ) × ℚ × ℚ
  | [], bucket, used, rem => (bucket, used, rem)
  | py :: rest, bucket, used, rem =>
    if 4 < year - py then useBasketLoop year rest bucket used rem
    else
      let available := (mapFind? bucket py).getD 0
      let take := min available rem
      let bucket1 := mapSet bucket py (available - take)
      let used1 := used + take
      let rem1 := rem - take
      let bucket2 := if (mapFind? bucket1 py).getD 0 = 0 then mapDelete bucket1 py else bucket1
      if rem1 = 0 then (bucket2, used1, rem1)
      else useBasketLoop year rest bucket2 used1 rem1

/-- One year of the calculateZainettoReport loop: block A uses the
basket when the compensable trading gain is positive; block B, when the
year has losses and the net annual position is negative, opens the new
basket entry and resets the used amount and the taxable base; block C
deletes (as expired) the entry whose origin year is exactly year - 4;
block D totals the residual bucket.  Returns the report row and the
updated bucket. -/
def zainettoYearStep (bucket : List (Int × ℚ)) (year : Int) (s : YState) (divs : ℚ) :
    ZRow × List (Int × ℚ) :=
  let gainNoComp := s.gainNonCompensabile + divs
  let tradingGain := s.gainCompensabile
  let expiryYearLimit := year - 4
  let a : List (Int × ℚ) × ℚ × ℚ :=
    if 0 < tradingGain then
      let availableYears := sortInts (mapKeys bucket)
      let r := useBasketLoop year availableYears bucket 0 tradingGain
      (r.1, r.2.1, gainNoComp + r.2.2)
    else (bucket, 0, gainNoComp)
  let b : List (Int × ℚ) × ℚ × ℚ :=
    if 0 < s.lossAnno then
      let netAnnual := s.gainCompensabile - s.lossAnno
      if netAnnual < 0 then (mapSet a.1 year (abs netAnnual), 0, gainNoComp)
      else a
    else a
  let c : ℚ × List (Int × ℚ) :=
    match mapFind? b.1 expiryYearLimit with
    | some v => (v, mapDelete b.1 expiryYearLimit)
    | none => (0, b.1)
  let totalResiduo := (c.2.map (fun e => e.2)).sum
  let newLosses :=
    if s.gainCompensabile < s.lossAnno then s.lossAnno - s.gainCompensabile else 0
  let estimatedTax := b.2.2 * (26 / 100)
  ({ year := year, usefulGain := s.gainCompensabile, uselessGain := gainNoComp,
     newLosses := newLosses, basketUsed := b.2.1, basketExpired := c.1,
     netTaxable := b.2.2, tax := estimatedTax, residualBasket := totalResiduo }, c.2)

/-- The year loop of calculateZainettoReport over the ascending year
list, threading the minusBucket. -/
def zainettoYearsLoop (stats : List (Int × YState)) (divMap : List (Int × ℚ)) :
    List Int → List (Int × ℚ) → List ZRow × List (Int × ℚ)
  | [], bucket => ([], bucket)
  | y :: rest, bucket =>
    let s := (mapFind? stats y).getD ⟨0, 0, 0⟩
    let divs := (mapFind? divMap y).getD 0
    let r := zainettoYearStep bucket y s divs
    let r2 := zainettoYearsLoop stats divMap rest r.2
    (r.1 :: r2.1, r2.2)

/-- calculateZainettoReport, kept together with its final minusBucket:
the sales come from calculateFiscalReportDetails on the same data, the
dividend years are merged in, and the years are processed oldest first
starting from an empty bucket. -/
def zainettoRun (allData : List Trade) : List ZRow × List (Int × ℚ) :=
  let trades := calculateFiscalReportDetails allData
  let divMap := zainettoYearlyDividends allData
  let stats := zainettoAddDividendYears (zainettoAggregate trades) divMap
  let years := sortInts (mapKeys stats)
  zainettoYearsLoop stats divMap years []

/-- The report returned by calculateZainettoReport (data rows). -/
def calculateZainettoReport (allData : List Trade) : List ZRow :=
  (zainettoRun allData).1

/-- The CUTOFF_DATE constant of Sheets_Trading.js, 2026-01-30. -/
def CUTOFF_DATE : JsDate := ⟨2026, 30⟩

/-- The standardized trade object of createTradeObject, also used as the
lot stored in the processFifo queues; the action tag is stored but never
read back. -/
structure PLot where
  shares : ℚ
  price : ℚ
  action : String
deriving DecidableEq, Repr

/-- createTradeObject of Sheets_Trading.js. -/
def createTradeObject (quantity price : ℚ) (action : String) : PLot :=
  { shares := quantity, price := price, action := action }

/-- One row of the parallel input ranges of processFifo: security,
action, quantity, unit price and date; none models a falsy date cell. -/
structure FifoRow where
  security : String
  action : String
  quantity : ℚ
  price : ℚ
  date : Option JsDate
deriving DecidableEq, Repr

/-- The buy classification of processFifo (narrower than the fiscal
engines): exactly Buy, or DRIP or REWARD case-insensitively. -/
def fifoIsBuy (action : String) : Bool :=
  action == "Buy" || jsToUpper action == "DRIP" || jsToUpper action == "REWARD"

/-- The sell while-loop of processFifo: full consumption shifts the
oldest lot and keeps going on the rounded remainder to sell; partial
consumption rewrites the oldest lot to the rounded difference and ends
with zero left to sell.  Returns the remaining lots and the unconsumed
leftover volume. -/
def sellLoopPF (prec : ℕ) : List PLot → ℚ → List PLot × ℚ
  | [], toSell => ([], toSell)
  | lot :: rest, toSell =>
    if 0 < toSell then
      let avail := roundTo prec lot.shares
      if avail ≤ toSell then
        sellLoopPF prec rest (roundTo prec (toSell - avail))
      else
        ({ lot with shares := roundTo prec (avail - toSell) } :: rest, 0)
    else (lot :: rest, toSell)

/-- The state threaded through the processFifo row loop.  The consumed
total is instrumentation for the statements below, not source state: it
accumulates, over the sell branches, the rounded sell volume minus the
leftover the while-loop could not match. -/
structure FifoState where
  portfolio : List (String × List PLot)
  consumed : ℚ
deriving DecidableEq, Repr

/-- One iteration of the processFifo row loop: skip falsy tickers, push
buy-class rows onto the queue tail, and on Sell consume FIFO and then
apply the deletion logic (crypto mode always deletes an emptied queue;
stock mode deletes it only when the trade date precedes CUTOFF_DATE). -/
def processFifoStep (prec : ℕ) (keepRows : Bool) (st : FifoState) (r : FifoRow) : FifoState :=
  let ticker := r.security
  if ticker = "" then st
  else
    let action := r.action
    let tradeDate := r.date.getD ⟨1900, 1⟩
    let trade := createTradeObject r.quantity r.price action
    let port1 :=
      if fifoIsBuy action then
        match mapFind? st.portfolio ticker with
        | none => mapSet st.portfolio ticker [trade]
        | some lots => mapSet st.portfolio ticker (lots ++ [trade])
      else st.portfolio
    if action = "Sell" then
      match mapFind? port1 ticker with
      | none => { portfolio := port1, consumed := st.consumed }
      | some lots =>
        let toSell0 := roundTo prec trade.shares
        let res := sellLoopPF prec lots toSell0
        let port2 := mapSet port1 ticker res.1
        let port3 :=
          if res.1.length = 0 then
            if keepRows then
              if dateLt tradeDate CUTOFF_DATE then mapDelete port2 ticker else port2
            else mapDelete port2 ticker
          else port2
        { portfolio := port3, consumed := st.consumed + (toSell0 - res.2) }
    else { portfolio := port1, consumed := st.consumed }

/-- processFifo with its instrumented state: the fold of the row loop
from the empty portfolio. -/
def processFifoRun (rows : List FifoRow) (prec : ℕ) (keepRows : Bool) : FifoState :=
  rows.foldl (processFifoStep prec keepRows) { portfolio := [], consumed := 0 }

/-- processFifo of Sheets_Trading.js: the final portfolio map. -/
def processFifo (rows : List FifoRow) (prec : ℕ) (keepRows : Bool) :
    List (String × List PLot) :=
  (processFifoRun rows prec keepRows).portfolio

/-- The lots processFifo currently holds for a ticker, an absent entry
reading as the empty queue. -/
def plotsView (m : List (String × List PLot)) (tk : String) : List PLot :=
  (mapFind? m tk).getD []

/-- Total remaining shares of a processFifo queue. -/
def sumPShares (lots : List PLot) : ℚ :=
  (lots.map (fun l => l.shares)).sum

/-- Total shares bought over a processFifo input: the quantities of the
rows the buy logic pushes as lots. -/
def fifoTotalBought (rows : List FifoRow) : ℚ :=
  ((rows.filter (fun r => fifoIsBuy r.action)).map (fun r => r.quantity)).sum

/-- A holding of the PORTFOLIO_EVOLUZIONE simple accumulation:
{ qty, invested, type }. -/
structure Holding where
  qty : ℚ
  invested : ℚ
  assetType : String
deriving DecidableEq, Repr

/-- One iteration of the PORTFOLIO_EVOLUZIONE holdings loop: ensure the
entry exists, add quantity and spent on buy-class actions, reduce
invested capital proportionally (average cost) and quantity on Sell when
the held quantity is positive, and add quantity on Split. -/
def reconStep (m : List (String × Holding)) (trade : Trade) : List (String × Holding) :=
  let t := trade.ticker
  let m1 := if (mapFind? m t).isSome then m else mapSet m t ⟨0, 0, trade.type⟩
  let h := (mapFind? m1 t).getD ⟨0, 0, trade.type⟩
  if isBuyAction trade.action then
    mapSet m1 t { h with qty := h.qty + trade.qty, invested := h.invested + trade.totalSpent }
  else if trade.action = "Sell" then
    if 0 < h.qty then
      let avgCost := h.invested / h.qty
      mapSet m1 t { h with invested := h.invested - trade.qty * avgCost,
                           qty := h.qty - trade.qty }
    else m1
  else if trade.action = "Split" then
    mapSet m1 t { h with qty := h.qty + trade.qty }
  else m1

/-- The holdings accumulation of PORTFOLIO_EVOLUZIONE over a filtered
trade list. -/
def reconHoldings (trades : List Trade) : List (String × Holding) :=
  trades.foldl reconStep []

/-- The holdings PORTFOLIO_EVOLUZIONE computes at a cutoff instant: the
merged normalized data is sorted chronologically, filtered to the trades
at or before the cutoff, and accumulated. -/
def holdingsAt (allData : List Trade) (cutoff : JsDate) : List (String × Holding) :=
  reconHoldings ((sortByDate allData).filter (fun d => dateLe d.date cutoff))

/-- The reconstructed quantity for a ticker, an absent entry reading 0. -/
def reconQty (m : List (String × Holding)) (tk : String) : ℚ :=
  ((mapFind? m tk).map (fun h => h.qty)).getD 0

/-- The reconstructed invested capital for a ticker. -/
def reconInvested (m : List (String × Holding)) (tk : String) : ℚ :=
  ((mapFind? m tk).map (fun h => h.invested)).getD 0

/-- Checker for the refinement statement: every Sell trade in the list,
taken in order, sells at most the quantity then held (in the sense of
the simple accumulation).  On such inputs the reconstruction and the
FIFO matcher agree on quantities. -/
def sellsCoveredLoop : List (String × Holding) → List Trade → Bool
  | _, [] => true
  | m, t :: rest =>
    (if t.action = "Sell" then decide (t.qty ≤ reconQty m t.ticker) else true)
      && sellsCoveredLoop (reconStep m t) rest

/-- sellsCoveredLoop from the empty holdings map. -/
def sellsCovered (trades : List Trade) : Bool :=
  sellsCoveredLoop [] trades


/-- The C1 scenario: Buy 10 at 100 (2023-01-01), Buy 10 at 120
(2023-06-01), Sell 15 at 150 (2024-01-01), one Stock ticker. -/
def c1Trades : List Trade :=
  [⟨⟨2023, 1⟩, "AAA", "Buy", 10, 100, 1000, "Stock"⟩,
   ⟨⟨2023, 152⟩, "AAA", "Buy", 10, 120, 1200, "Stock"⟩,
   ⟨⟨2024, 1⟩, "AAA", "Sell", 15, 150, 2250, "Stock"⟩]

/-- The C2 failing input: a 1000 loss realized in 2018 and a 500
compensable gain realized in 2024, with no realized trades in between
(so no processed year equals 2018 + 4). -/
def c2Trades : List Trade :=
  [⟨⟨2018, 10⟩, "AAA", "Buy", 10, 200, 2000, "Stock"⟩,
   ⟨⟨2018, 200⟩, "AAA", "Sell", 10, 100, 1000, "Stock"⟩,
   ⟨⟨2024, 10⟩, "BBB", "Buy", 10, 100, 1000, "Stock"⟩,
   ⟨⟨2024, 200⟩, "BBB", "Sell", 10, 150, 1500, "Stock"⟩]

/-- The C3 failing input: a 1000 loss in 2020 opens a basket entry; 2021
realizes a 100 compensable gain and a 300 loss, a net loss year. -/
def c3Trades : List Trade :=
  [⟨⟨2020, 10⟩, "AAA", "Buy", 10, 200, 2000, "Stock"⟩,
   ⟨⟨2020, 50⟩, "AAA", "Sell", 10, 100, 1000, "Stock"⟩,
   ⟨⟨2021, 10⟩, "BBB", "Buy", 100, 1, 100, "Stock"⟩,
   ⟨⟨2021, 50⟩, "BBB", "Sell", 100, 2, 200, "Stock"⟩,
   ⟨⟨2021, 20⟩, "CCC", "Buy", 300, 2, 600, "Stock"⟩,
   ⟨⟨2021, 60⟩, "CCC", "Sell", 300, 1, 300, "Stock"⟩]

/-- The fiscal-engine lots currently held for a ticker, an absent entry
reading as the empty queue. -/
def flotsView (m : List (String × List FLot)) (tk : String) : List FLot :=
  (mapFind? m tk).getD []

/-- The concrete row used to instantiate the C10 statement. -/
def c10Row : RawRow :=
  { date := some ⟨2023, 5⟩, security := some "AAPL", action := none,
    quantity := .num 3, price := .num 10, spent := .empty, typeCol := none }

/-- The C7 counterexample rows: a Buy of 1.000001 shares, one decimal
finer than the 5-decimal stock precision, followed by a Sell of 1. -/
def c7Rows : List FifoRow :=
  [⟨"A", "Buy", 1000001 / 1000000, 1, some ⟨2023, 1⟩⟩,
   ⟨"A", "Sell", 1, 1, some ⟨2023, 2⟩⟩]

/-- The C4 counterexample inputs: two differently priced lots with one
sold (invested capital diverges between the two engines), and an
oversell (quantities diverge). -/
def c4Trades : List Trade :=
  [⟨⟨2023, 1⟩, "AAA", "Buy", 1, 100, 100, "Stock"⟩,
   ⟨⟨2023, 2⟩, "AAA", "Buy", 1, 200, 200, "Stock"⟩,
   ⟨⟨2023, 3⟩, "AAA", "Sell", 1, 150, 150, "Stock"⟩]

/-- The C4 oversell input: one share held, five sold. -/
def c4Oversell : List Trade :=
  [⟨⟨2023, 1⟩, "AAA", "Buy", 1, 100, 100, "Stock"⟩,
   ⟨⟨2023, 2⟩, "AAA", "Sell", 5, 100, 500, "Stock"⟩]

/-- The C6 scenario: a 1000 stock loss in 2020 fills the basket; 2021
realizes a 500 ETF gain and nothing else. -/
def c6Trades : List Trade :=
  [⟨⟨2020, 10⟩, "AAA", "Buy", 10, 200, 2000, "Stock"⟩,
   ⟨⟨2020, 50⟩, "AAA", "Sell", 10, 100, 1000, "Stock"⟩,
   ⟨⟨2021, 10⟩, "EEE", "Buy", 100, 1, 100, "ETF"⟩,
   ⟨⟨2021, 50⟩, "EEE", "Sell", 100, 6, 600, "ETF"⟩]

theorem qRound_eq_round (q : ℚ) : qRound q = round q := by
  have hd : (0 : ℚ) < (q.den : ℚ) := by exact_mod_cast q.den_pos
  have h2 : ((q.den * 2 : ℕ) : ℚ) ≠ 0 := by positivity
  have hnum : (q.num : ℚ) = q * (q.den : ℚ) := by
    have h := Rat.num_div_den q
    rw [div_eq_iff hd.ne'] at h
    exact h
  have hfrac : q + 1 / 2 = ((q.num * 2 + (q.den : ℤ) : ℤ) : ℚ) / ((q.den * 2 : ℕ) : ℚ) := by
    rw [eq_div_iff h2]
    push_cast
    rw [hnum]
    ring
  have hfl : ⌊q + 1 / 2⌋ = (q.num * 2 + (q.den : ℤ)) / ((q.den * 2 : ℕ) : ℤ) := by
    rw [hfrac]
    exact Rat.floor_intCast_div_natCast _ _
  rw [round_eq, hfl]
  unfold qRound
  congr 1

theorem roundTo_eq_round (p : ℕ) (q : ℚ) :
    roundTo p q = (round (q * 10 ^ p) : ℚ) / 10 ^ p := by
  unfold roundTo
  rw [qRound_eq_round]

theorem exactAt_roundTo {p : ℕ} {q : ℚ} (h : ExactAt p q) : roundTo p q = q := by
  obtain ⟨n, hn⟩ := h
  have hp : ((10 : ℚ) ^ p) ≠ 0 := by positivity
  rw [roundTo_eq_round, hn, round_intCast, eq_comm, eq_div_iff hp, hn]

theorem roundTo_exactAt (p : ℕ) (q : ℚ) : ExactAt p (roundTo p q) := by
  refine ⟨qRound (q * 10 ^ p), ?_⟩
  have hp : ((10 : ℚ) ^ p) ≠ 0 := by positivity
  unfold roundTo
  field_simp

theorem roundTo_sub_roundTo (p : ℕ) (q : ℚ) : roundTo p (q - roundTo p q) = 0 := by
  have hp : ((10 : ℚ) ^ p) ≠ 0 := by positivity
  rw [roundTo_eq_round, roundTo_eq_round]
  have hexpand : (q - (round (q * 10 ^ p) : ℚ) / 10 ^ p) * 10 ^ p
      = q * 10 ^ p - (round (q * 10 ^ p) : ℚ) := by
    field_simp
  rw [hexpand, round_sub_int]
  simp

theorem exactAt_zero (p : ℕ) : ExactAt p 0 :=
  ⟨0, by push_cast; ring⟩

theorem exactAt_sub {p : ℕ} {a b : ℚ} (ha : ExactAt p a) (hb : ExactAt p b) :
    ExactAt p (a - b) := by
  obtain ⟨m, hm⟩ := ha
  obtain ⟨n, hn⟩ := hb
  exact ⟨m - n, by push_cast [sub_mul, hm, hn]; ring⟩

theorem exactAt_add {p : ℕ} {a b : ℚ} (ha : ExactAt p a) (hb : ExactAt p b) :
    ExactAt p (a + b) := by
  obtain ⟨m, hm⟩ := ha
  obtain ⟨n, hn⟩ := hb
  exact ⟨m + n, by push_cast [add_mul, hm, hn]; ring⟩

theorem exactAt_mono {p p2 : ℕ} {q : ℚ} (h : p ≤ p2) (hq : ExactAt p q) :
    ExactAt p2 q := by
  obtain ⟨n, hn⟩ := hq
  refine ⟨n * 10 ^ (p2 - p), ?_⟩
  have : (10 : ℚ) ^ p2 = 10 ^ p * 10 ^ (p2 - p) := by
    rw [← pow_add]
    congr 1
    omega
  rw [this, ← mul_assoc, hn]
  push_cast
  ring

theorem mapFind?_mapSet {K V : Type} [DecidableEq K] (m : List (K × V)) (k k2 : K) (v : V) :
    mapFind? (mapSet m k v) k2 = if k = k2 then some v else mapFind? m k2 := by
  induction m with
  | nil =>
    by_cases h : k = k2 <;> simp [mapSet, mapFind?, h]
  | cons e rest ih =>
    obtain ⟨a, b⟩ := e
    by_cases hak : a = k
    · subst hak
      by_cases h : a = k2 <;> simp [mapSet, mapFind?, h]
    · by_cases h : a = k2
      · subst h
        have : ¬ k = a := fun hc => hak hc.symm
        simp [mapSet, mapFind?, hak, this]
      · simp [mapSet, mapFind?, hak, h, ih]

theorem mapFind?_mapDelete {K V : Type} [DecidableEq K] (m : List (K × V)) (k k2 : K) :
    mapFind? (mapDelete m k) k2 = if k = k2 then none else mapFind? m k2 := by
  induction m with
  | nil =>
    by_cases h : k = k2 <;> simp [mapDelete, mapFind?, h]
  | cons e rest ih =>
    obtain ⟨a, b⟩ := e
    by_cases hak : a = k
    · subst hak
      by_cases h : a = k2
      · subst h
        simpa [mapDelete, mapFind?] using ih
      · simpa [mapDelete, mapFind?, h] using ih
    · by_cases h : a = k2
      · subst h
        have hka : ¬ k = a := fun hc => hak hc.symm
        simp [mapDelete, mapFind?, hak, hka]
      · simp [mapDelete, mapFind?, hak, h, ih]

/-- C1: for the single-ticker trade sequence Buy 10 at 100 (2023-01-01),
Buy 10 at 120 (2023-06-01), Sell 15 at 150 (2024-01-01), the FIFO lot
matcher of the fiscal engine reports cumulative realized trading P&L of
exactly 650 = 10 x (150 - 100) + 5 x (150 - 120), and leaves exactly one
open lot of 5 shares with unit cost 120. -/
theorem c1_fifo_scenario_pnl_and_lot :
    ((calculateFiscalReportDetails c1Trades).map (fun r => r.pnl)).sum = 650 ∧
    mapFind? (fiscalRun c1Trades).portfolio "AAA" = some [{ shares := 5, price := 120 }] := by
  decide

/-- C5 counterexample: the US-formatted string 1,234.56 does not parse
to the mathematically intended 1234.56; parseMyFloat removes every dot
as a thousands separator and returns 1.23456. -/
theorem c5_us_format_counterexample :
    parseMyFloat (.str "1,234.56") = 123456 / 100000 ∧
    ¬ parseMyFloat (.str "1,234.56") = 123456 / 100 := by
  decide

/-- C5 amended: parseMyFloat returns the intended number for European
formatted strings, strips the euro sign and whitespace, but treats every
dot as a thousands separator, so a US-formatted string with both
separators is misparsed (1,234.56 gives 1.23456); empty and unparseable
values give 0 without throwing (the embedding is total). -/
theorem c5_parser_amended :
    parseMyFloat (.str "1.234,56") = 123456 / 100 ∧
    parseMyFloat (.str "€ 1.234,56") = 123456 / 100 ∧
    parseMyFloat (.str "1,234.56") = 123456 / 100000 ∧
    parseMyFloat .empty = 0 ∧
    parseMyFloat (.str "") = 0 ∧
    (∀ s : String, ¬ s = "" → jsParseFloat (parseMyFloatClean s) = none →
      parseMyFloat (.str s) = 0) := by
  refine ⟨by decide, by decide, by decide, by decide, by decide, ?_⟩
  intro s hs h
  simp [parseMyFloat, hs, h]

/-- C5 amended, witness: the unparseable string abc cleans to itself,
parseFloat rejects it, and parseMyFloat returns 0. -/
theorem c5_parser_amended_witness :
    ¬ "abc" = "" ∧ jsParseFloat (parseMyFloatClean "abc") = none ∧
    parseMyFloat (.str "abc") = 0 :=
  ⟨by decide, by decide, c5_parser_amended.2.2.2.2.2 "abc" (by decide) (by decide)⟩

/-- C2, the code evaluated at the failing input: the 1000 loss basket
entry of origin year 2018 is more than four years old when 2024 is
processed, yet the 2024 report row shows it still in the residual basket
(1000) and never counted as expired, because the cleanup only deletes
the entry whose origin year is exactly the processed year minus 4 and no
processed year equals 2022. -/
theorem c2_expiry_gap_eval :
    (calculateZainettoReport c2Trades).map
      (fun r => (r.year, r.basketExpired, r.residualBasket)) =
      [(2018, 0, 1000), (2024, 0, 1000)] ∧
    (zainettoRun c2Trades).2 = [(2018, 1000)] := by
  decide

/-- C3, the code evaluated at the failing input: 2021 is a net-loss year
(gain 100, loss 300), and the report row for 2021 shows basket used 0
and a new 200 entry, but the pre-existing 2020 entry has been drawn down
from 1000 to 900 by block A before block B reset only the reported
numbers, so the residual total is 1100 instead of 1200. -/
theorem c3_net_loss_drawdown_eval :
    (zainettoRun c3Trades).2 = [(2020, 900), (2021, 200)] ∧
    (calculateZainettoReport c3Trades).map
      (fun r => (r.year, r.basketUsed, r.residualBasket)) =
      [(2020, 0, 1000), (2021, 0, 1100)] := by
  decide

theorem isDividend_not_buy (a : String) (h : isDividendAction a = true) :
    isBuyAction a = false := by
  simp only [isDividendAction, Bool.or_eq_true, beq_iff_eq] at h
  rcases h with h | h <;> subst h <;> decide

/-- C10: a raw input row whose security cell is present, nonempty and
not a cash row, and whose action cell is empty or missing, is normalized
to a canonical trade whose action is the string Buy, and that trade is
emitted in the normalizeData output. -/
theorem c10_blank_action_is_buy
    (isCryptoMode : Bool) (now : JsDate) (rows : List RawRow) (r : RawRow)
    (hmem : r ∈ rows) (sec : String) (hsec : r.security = some sec) (hne : ¬ sec = "")
    (hcash : jsIncludes (jsToUpper sec) "CASH" = false)
    (heur : jsIncludes (jsToUpper sec) "EUR" = false)
    (hact : r.action = none ∨ r.action = some "") :
    ∃ t : Trade, normalizeRow isCryptoMode now r = some t ∧ t.action = "Buy" ∧
      t ∈ normalizeData isCryptoMode now rows := by
  have hbuy : (match r.action with
      | none => "Buy"
      | some a => if a = "" then "Buy" else a) = "Buy" := by
    rcases hact with h | h <;> rw [h]
    simp
  have hrow : ∃ t : Trade, normalizeRow isCryptoMode now r = some t ∧ t.action = "Buy" := by
    unfold normalizeRow
    rw [hsec]
    simp only [hne, if_false, hcash, heur, Bool.or_self, Bool.false_eq_true, hbuy]
    cases isCryptoMode
    · simp only [Bool.false_eq_true, if_false]
      refine ⟨_, rfl, ?_⟩
      simp
    · simp only [if_true]
      exact ⟨_, rfl, rfl⟩
  obtain ⟨t, ht, htact⟩ := hrow
  refine ⟨t, ht, htact, ?_⟩
  have hmem2 : t ∈ rows.filterMap (normalizeRow isCryptoMode now) :=
    List.mem_filterMap.mpr ⟨r, hmem, ht⟩
  unfold normalizeData sortByDate
  exact (List.perm_insertionSort _ _).mem_iff.mpr hmem2

/-- C10 witness: a concrete stock row with a blank action cell becomes a
Buy trade in the normalizeData output. -/
theorem c10_blank_action_is_buy_witness :
    c10Row ∈ [c10Row] ∧ c10Row.action = none ∧
    (∃ t : Trade, normalizeRow false ⟨2024, 1⟩ c10Row = some t ∧ t.action = "Buy" ∧
      t ∈ normalizeData false ⟨2024, 1⟩ [c10Row]) :=
  ⟨by simp, rfl,
   c10_blank_action_is_buy false ⟨2024, 1⟩ [c10Row] c10Row (by simp) "AAPL" rfl
     (by decide) (by decide) (by decide) (Or.inl rfl)⟩

/-- C8: every buy-class action (one of Buy, DRIP, REWARD, STAKING,
MINING, MINT, or any action whose upper-case form contains BUY) makes
each FIFO engine that consumes normalized trades append a new lot to the
tail of that ticker queue: calculatePortfolioStats pushes
{ shares: qty, price: unitPrice, date } and calculateFiscalReportDetails
pushes { shares: qty, price: unitPrice }; every other ticker queue is
left unchanged. -/
theorem c8_buy_class_appends_lot (st : PortState) (fst : FiscState) (trade : Trade)
    (hbuy : isBuyAction trade.action = true) :
    (lotsView (portfolioStep st trade).portfolio trade.ticker =
        lotsView st.portfolio trade.ticker ++
          [{ shares := trade.qty, price := trade.unitPrice, date := trade.date }] ∧
      ∀ tk, ¬ tk = trade.ticker →
        lotsView (portfolioStep st trade).portfolio tk = lotsView st.portfolio tk) ∧
    (flotsView (fiscalStep fst trade).portfolio trade.ticker =
        flotsView fst.portfolio trade.ticker ++
          [{ shares := trade.qty, price := trade.unitPrice }] ∧
      ∀ tk, ¬ tk = trade.ticker →
        flotsView (fiscalStep fst trade).portfolio tk = flotsView fst.portfolio tk) := by
  have hdiv : isDividendAction trade.action = false := by
    cases hd : isDividendAction trade.action
    · rfl
    · rw [isDividend_not_buy _ hd] at hbuy
      cases hbuy
  refine ⟨⟨?_, ?_⟩, ?_, ?_⟩
  · cases hfind : mapFind? st.portfolio trade.ticker with
    | none =>
      simp [portfolioStep, hdiv, hbuy, hfind, lotsView, mapFind?_mapSet]
    | some lots =>
      simp [portfolioStep, hdiv, hbuy, hfind, lotsView, mapFind?_mapSet]
  · intro tk htk
    have hne : ¬ trade.ticker = tk := fun hc => htk hc.symm
    cases hfind : mapFind? st.portfolio trade.ticker with
    | none =>
      simp [portfolioStep, hdiv, hbuy, hfind, lotsView, mapFind?_mapSet, hne]
    | some lots =>
      simp [portfolioStep, hdiv, hbuy, hfind, lotsView, mapFind?_mapSet, hne]
  · cases hfind : mapFind? fst.portfolio trade.ticker with
    | none =>
      simp [fiscalStep, hbuy, hfind, flotsView, mapFind?_mapSet]
    | some lots =>
      simp [fiscalStep, hbuy, hfind, flotsView, mapFind?_mapSet]
  · intro tk htk
    have hne : ¬ trade.ticker = tk := fun hc => htk hc.symm
    cases hfind : mapFind? fst.portfolio trade.ticker with
    | none =>
      simp [fiscalStep, hbuy, hfind, flotsView, mapFind?_mapSet, hne]
    | some lots =>
      simp [fiscalStep, hbuy, hfind, flotsView, mapFind?_mapSet, hne]

/-- C8 witness: a STAKING crypto trade appends its lot at the tail of a
nonempty queue in both engines and leaves another ticker untouched. -/
theorem c8_buy_class_appends_lot_witness :
    isBuyAction "STAKING" = true ∧
    (lotsView (portfolioStep
        { portfolio := [("BTC", [{ shares := 1, price := 9, date := ⟨2022, 1⟩ }])],
          stats := [] }
        ⟨⟨2023, 1⟩, "BTC", "STAKING", 2, 5, 10, "Crypto"⟩).portfolio "BTC" =
      [{ shares := 1, price := 9, date := ⟨2022, 1⟩ },
       { shares := 2, price := 5, date := ⟨2023, 1⟩ }] ∧
      ∀ tk, ¬ tk = "BTC" →
        lotsView (portfolioStep
          { portfolio := [("BTC", [{ shares := 1, price := 9, date := ⟨2022, 1⟩ }])],
            stats := [] }
          ⟨⟨2023, 1⟩, "BTC", "STAKING", 2, 5, 10, "Crypto"⟩).portfolio tk =
        lotsView [("BTC", [{ shares := 1, price := 9, date := ⟨2022, 1⟩ }])] tk) ∧
    (flotsView (fiscalStep { portfolio := [], rows := [] }
        ⟨⟨2023, 1⟩, "BTC", "STAKING", 2, 5, 10, "Crypto"⟩).portfolio "BTC" =
      [{ shares := 2, price := 5 }] ∧
      ∀ tk, ¬ tk = "BTC" →
        flotsView (fiscalStep { portfolio := [], rows := [] }
          ⟨⟨2023, 1⟩, "BTC", "STAKING", 2, 5, 10, "Crypto"⟩).portfolio tk =
        flotsView ([] : List (String × List FLot)) tk) := by
  refine ⟨by decide, ?_⟩
  have h := c8_buy_class_appends_lot
    { portfolio := [("BTC", [{ shares := 1, price := 9, date := ⟨2022, 1⟩ }])], stats := [] }
    { portfolio := [], rows := [] }
    ⟨⟨2023, 1⟩, "BTC", "STAKING", 2, 5, 10, "Crypto"⟩ (by decide)
  simpa using h

theorem useBasketLoop_rem_nonneg (year : Int) (ys : List Int) :
    ∀ (bucket : List (Int × ℚ)) (used rem : ℚ), 0 ≤ rem →
      0 ≤ (useBasketLoop year ys bucket used rem).2.2 := by
  induction ys with
  | nil =>
    intro bucket used rem h
    simpa [useBasketLoop] using h
  | cons py rest ih =>
    intro bucket used rem h
    simp only [useBasketLoop]
    split
    · exact ih bucket used rem h
    · have htake : min ((mapFind? bucket py).getD 0) rem ≤ rem := min_le_right _ _
      split
      · exact sub_nonneg.mpr htake
      · exact ih _ _ _ (sub_nonneg.mpr htake)

/-- C6: in every year transition of the tax-basket engine, the net
taxable base is at least the non-compensable part (ETF gains plus
dividends), which is therefore taxed in full at 26 percent and never
reduced by the loss basket, and the estimated tax is exactly 26 percent
of the base; moreover, on the concrete scenario with a 1000 stock-loss
basket from 2020 and a 500 ETF gain in 2021, the 2021 row taxes the full
500 (tax 130) while the basket stays at 1000 with 0 used. -/
theorem c6_noncompensable_fully_taxed :
    (∀ (bucket : List (Int × ℚ)) (year : Int) (s : YState) (divs : ℚ),
      0 ≤ (zainettoYearStep bucket year s divs).1.netTaxable -
        (s.gainNonCompensabile + divs) ∧
      (zainettoYearStep bucket year s divs).1.tax =
        (zainettoYearStep bucket year s divs).1.netTaxable * (26 / 100)) ∧
    (calculateZainettoReport c6Trades).map (fun r => (r.uselessGain, r.netTaxable, r.tax)) =
      [(0, 0, 0), (500, 500, 130)] ∧
    (calculateZainettoReport c6Trades).map (fun r => (r.residualBasket, r.basketUsed)) =
      [(1000, 0), (1000, 0)] := by
  refine ⟨?_, by decide, by decide⟩
  intro bucket year s divs
  constructor
  · simp only [zainettoYearStep]
    split_ifs <;> (try simp) <;>
      exact useBasketLoop_rem_nonneg year (sortInts (mapKeys bucket)) bucket 0
        s.gainCompensabile (le_of_lt (by assumption))
  · rfl

theorem sumPShares_nonneg (lots : List PLot) (h : ∀ l ∈ lots, 0 ≤ l.shares) :
    0 ≤ sumPShares lots := by
  induction lots with
  | nil => simp [sumPShares]
  | cons lot rest ih =>
    have h1 := h lot (by simp)
    have h2 := ih (fun l hl => h l (by simp [hl]))
    simp only [sumPShares, List.map_cons, List.sum_cons] at h2 ⊢
    linarith

theorem sellLoopPF_consume_all (prec : ℕ) (lots : List PLot) :
    ∀ toSell : ℚ, (∀ l ∈ lots, 0 < l.shares ∧ ExactAt prec l.shares) →
      ExactAt prec toSell → sumPShares lots ≤ toSell →
      sellLoopPF prec lots toSell = ([], toSell - sumPShares lots) := by
  induction lots with
  | nil =>
    intro toSell _ _ _
    simp [sellLoopPF, sumPShares]
  | cons lot rest ih =>
    intro toSell hl ht hle
    have hlot := hl lot (by simp)
    have hrest : ∀ l ∈ rest, 0 < l.shares ∧ ExactAt prec l.shares :=
      fun l hlm => hl l (by simp [hlm])
    have hrestsum : 0 ≤ sumPShares rest :=
      sumPShares_nonneg rest (fun l hlm => le_of_lt (hrest l hlm).1)
    have hsum : sumPShares (lot :: rest) = lot.shares + sumPShares rest := by
      simp [sumPShares]
    rw [hsum] at hle
    have hpos : 0 < toSell := lt_of_lt_of_le hlot.1 (by linarith)
    have havail : roundTo prec lot.shares = lot.shares := exactAt_roundTo hlot.2
    have hle2 : roundTo prec lot.shares ≤ toSell := by
      rw [havail]
      linarith
    have hts : roundTo prec (toSell - roundTo prec lot.shares) = toSell - lot.shares := by
      rw [havail]
      exact exactAt_roundTo (exactAt_sub ht hlot.2)
    simp only [sellLoopPF, if_pos hpos, if_pos hle2, hts]
    rw [ih (toSell - lot.shares) hrest (exactAt_sub ht hlot.2) (by linarith)]
    rw [hsum]
    congr 1
    ring

/-- C9 counterexample: a Sell of 5 shares on a ticker holding a single
lot of 3 consumes the lot (3 shares consumed, 2 dropped) and, far from
leaving all lot queues exactly as they were, empties and removes that
ticker queue. -/
theorem c9_oversell_counterexample :
    plotsView (processFifo [⟨"A", "Buy", 3, 1, some ⟨2023, 1⟩⟩] 5 false) "A" =
      [⟨3, 1, "Buy"⟩] ∧
    plotsView (processFifo [⟨"A", "Buy", 3, 1, some ⟨2023, 1⟩⟩,
      ⟨"A", "Sell", 5, 1, some ⟨2023, 2⟩⟩] 5 false) "A" = [] ∧
    (processFifoRun [⟨"A", "Buy", 3, 1, some ⟨2023, 1⟩⟩,
      ⟨"A", "Sell", 5, 1, some ⟨2023, 2⟩⟩] 5 false).consumed = 3 := by
  decide

/-- C9 amended: a Sell on a ticker whose lot queue is empty or absent
leaves the lots of every ticker unchanged and consumes nothing, and a
Sell whose quantity is at least the shares held (positive exact lots)
consumes exactly the held shares, drops the excess volume, empties that
ticker queue and leaves every other queue unchanged; the embedding is a
total function, so no error is raised in either case. -/
theorem c9_sell_tolerance (prec : ℕ) (keepRows : Bool) (st : FifoState) (r : FifoRow)
    (hsell : r.action = "Sell") :
    ((mapFind? st.portfolio r.security = none ∨
        mapFind? st.portfolio r.security = some []) →
      (∀ tk, plotsView (processFifoStep prec keepRows st r).portfolio tk =
          plotsView st.portfolio tk) ∧
      (processFifoStep prec keepRows st r).consumed = st.consumed) ∧
    (∀ lots : List PLot, ¬ r.security = "" →
      mapFind? st.portfolio r.security = some lots →
      (∀ l ∈ lots, 0 < l.shares ∧ ExactAt prec l.shares) →
      ExactAt prec r.quantity → sumPShares lots ≤ r.quantity →
      plotsView (processFifoStep prec keepRows st r).portfolio r.security = [] ∧
      (processFifoStep prec keepRows st r).consumed = st.consumed + sumPShares lots ∧
      (∀ tk, ¬ tk = r.security →
        plotsView (processFifoStep prec keepRows st r).portfolio tk =
          plotsView st.portfolio tk)) := by
  have hbuy : fifoIsBuy "Sell" = false := by decide
  constructor
  · intro hempty
    by_cases hne : r.security = ""
    · simp [processFifoStep, hne]
    · rcases hempty with hnone | hemp
      · simp [processFifoStep, hne, hsell, hbuy, hnone]
      · have hres : sellLoopPF prec [] (roundTo prec r.quantity) =
          ([], roundTo prec r.quantity) := rfl
        simp only [processFifoStep, hne, hsell, hbuy, hemp, hres, createTradeObject,
          if_false, if_true, Bool.false_eq_true, reduceIte]
        constructor
        · intro tk
          by_cases htk : tk = r.security
          · subst htk
            simp [plotsView, mapFind?_mapSet, mapFind?_mapDelete, hemp]
            split_ifs <;> simp [plotsView, mapFind?_mapSet, mapFind?_mapDelete, hemp]
          · have hne2 : ¬ r.security = tk := fun hc => htk hc.symm
            simp [plotsView, mapFind?_mapSet, mapFind?_mapDelete, hne2]
            split_ifs <;> simp [plotsView, mapFind?_mapSet, mapFind?_mapDelete, hne2]
        · simp
  · intro lots hne hfind hl hq hle
    have hq' : roundTo prec r.quantity = r.quantity := exactAt_roundTo hq
    have hres : sellLoopPF prec lots (roundTo prec r.quantity) =
        ([], r.quantity - sumPShares lots) := by
      rw [hq']
      exact sellLoopPF_consume_all prec lots r.quantity hl hq hle
    simp only [processFifoStep, hne, hsell, hbuy, hfind, hres, createTradeObject,
      if_false, if_true, Bool.false_eq_true, reduceIte]
    refine ⟨?_, by rw [hq']; ring, ?_⟩
    · simp [plotsView, mapFind?_mapSet, mapFind?_mapDelete]
      split_ifs <;> simp [plotsView, mapFind?_mapSet, mapFind?_mapDelete]
    · intro tk htk
      have hne2 : ¬ r.security = tk := fun hc => htk hc.symm
      simp [plotsView, mapFind?_mapSet, mapFind?_mapDelete, hne2]
      split_ifs <;> simp [plotsView, mapFind?_mapSet, mapFind?_mapDelete, hne2]

/-- C9 witness: a Sell on a present-but-empty queue changes no lots and
consumes nothing. -/
theorem c9_sell_tolerance_witness :
    (⟨"A", "Sell", 2, 1, some ⟨2023, 2⟩⟩ : FifoRow).action = "Sell" ∧
    mapFind? [("A", ([] : List PLot))] "A" = some [] ∧
    plotsView (processFifoStep 5 false ⟨[("A", [])], 0⟩
      ⟨"A", "Sell", 2, 1, some ⟨2023, 2⟩⟩).portfolio "A" = plotsView [("A", [])] "A" ∧
    (processFifoStep 5 false ⟨[("A", [])], 0⟩
      ⟨"A", "Sell", 2, 1, some ⟨2023, 2⟩⟩).consumed = (⟨[("A", [])], 0⟩ : FifoState).consumed := by
  have h := (c9_sell_tolerance 5 false ⟨[("A", [])], 0⟩
    ⟨"A", "Sell", 2, 1, some ⟨2023, 2⟩⟩ rfl).1 (Or.inr (by decide))
  exact ⟨rfl, by decide, h.1 "A", h.2⟩

theorem sellLoopPF_spec (prec : ℕ) (lots : List PLot) :
    ∀ toSell : ℚ, (∀ l ∈ lots, 0 ≤ l.shares ∧ ExactAt prec l.shares) →
      0 ≤ toSell → ExactAt prec toSell →
      (∀ l ∈ (sellLoopPF prec lots toSell).1, 0 ≤ l.shares ∧ ExactAt prec l.shares) ∧
      0 ≤ (sellLoopPF prec lots toSell).2 ∧
      sumPShares (sellLoopPF prec lots toSell).1 =
        sumPShares lots - (toSell - (sellLoopPF prec lots toSell).2) := by
  induction lots with
  | nil =>
    intro toSell _ h0 _
    refine ⟨by simp [sellLoopPF], by simpa [sellLoopPF] using h0, ?_⟩
    simp [sellLoopPF, sumPShares]
  | cons lot rest ih =>
    intro toSell hl h0 he
    have hlot := hl lot (by simp)
    have hrest : ∀ l ∈ rest, 0 ≤ l.shares ∧ ExactAt prec l.shares :=
      fun l hlm => hl l (by simp [hlm])
    have havail : roundTo prec lot.shares = lot.shares := exactAt_roundTo hlot.2
    by_cases hpos : 0 < toSell
    · by_cases hfull : roundTo prec lot.shares ≤ toSell
      · have hts : roundTo prec (toSell - roundTo prec lot.shares) = toSell - lot.shares := by
          rw [havail]
          exact exactAt_roundTo (exactAt_sub he hlot.2)
        have h0' : 0 ≤ toSell - lot.shares := by
          rw [havail] at hfull
          linarith
        have hi := ih (toSell - lot.shares) hrest h0' (exactAt_sub he hlot.2)
        simp only [sellLoopPF, if_pos hpos, if_pos hfull, hts]
        refine ⟨hi.1, hi.2.1, ?_⟩
        rw [hi.2.2]
        simp only [sumPShares, List.map_cons, List.sum_cons]
        ring
      · have hs1 : roundTo prec (roundTo prec lot.shares - toSell) = lot.shares - toSell := by
          rw [havail]
          exact exactAt_roundTo (exactAt_sub hlot.2 he)
        have hge : toSell < lot.shares := by
          rw [havail] at hfull
          linarith
        simp only [sellLoopPF, if_pos hpos, if_neg hfull, hs1]
        refine ⟨?_, le_refl 0, ?_⟩
        · intro l hlm
          rcases List.mem_cons.mp hlm with hh | hh
          · subst hh
            exact ⟨by simp; linarith, by simpa using exactAt_sub hlot.2 he⟩
          · exact hrest l hh
        · simp only [sumPShares, List.map_cons, List.sum_cons]
          ring
    · simp only [sellLoopPF, if_neg hpos]
      refine ⟨hl, h0, by ring⟩


theorem processFifoStep_skip (prec : ℕ) (keepRows : Bool) (st : FifoState) (r : FifoRow)
    (h : r.security = "") : processFifoStep prec keepRows st r = st := by
  simp [processFifoStep, h]

theorem processFifoStep_other (prec : ℕ) (keepRows : Bool) (st : FifoState) (r : FifoRow)
    (hb : fifoIsBuy r.action = false) (hs : ¬ r.action = "Sell") :
    processFifoStep prec keepRows st r = st := by
  by_cases hne : r.security = ""
  · simp [processFifoStep, hne]
  · simp [processFifoStep, hne, hb, hs]

theorem processFifoStep_sell_none (prec : ℕ) (keepRows : Bool) (st : FifoState) (r : FifoRow)
    (hs : r.action = "Sell")
    (hfind : mapFind? st.portfolio r.security = none) :
    processFifoStep prec keepRows st r = st := by
  have hbf : fifoIsBuy "Sell" = false := by decide
  by_cases hne : r.security = ""
  · simp [processFifoStep, hne]
  · simp [processFifoStep, hne, hs, hbf, hfind]

theorem processFifoStep_buy (prec : ℕ) (keepRows : Bool) (st : FifoState) (r : FifoRow)
    (hne : ¬ r.security = "") (hb : fifoIsBuy r.action = true) (hs : ¬ r.action = "Sell") :
    plotsView (processFifoStep prec keepRows st r).portfolio r.security =
      plotsView st.portfolio r.security ++ [createTradeObject r.quantity r.price r.action] ∧
    (processFifoStep prec keepRows st r).consumed = st.consumed ∧
    (∀ tk2, ¬ tk2 = r.security →
      plotsView (processFifoStep prec keepRows st r).portfolio tk2 =
        plotsView st.portfolio tk2) := by
  cases hfind : mapFind? st.portfolio r.security with
  | none =>
    refine ⟨?_, by simp [processFifoStep, hne, hb, hs, hfind], ?_⟩
    · simp [processFifoStep, hne, hb, hs, hfind, plotsView, mapFind?_mapSet]
    · intro tk2 htk2
      have hne2 : ¬ r.security = tk2 := fun hc => htk2 hc.symm
      simp [processFifoStep, hne, hb, hs, hfind, plotsView, mapFind?_mapSet, hne2]
  | some lots =>
    refine ⟨?_, by simp [processFifoStep, hne, hb, hs, hfind], ?_⟩
    · simp [processFifoStep, hne, hb, hs, hfind, plotsView, mapFind?_mapSet]
    · intro tk2 htk2
      have hne2 : ¬ r.security = tk2 := fun hc => htk2 hc.symm
      simp [processFifoStep, hne, hb, hs, hfind, plotsView, mapFind?_mapSet, hne2]

theorem processFifoStep_sell (prec : ℕ) (keepRows : Bool) (st : FifoState) (r : FifoRow)
    (hne : ¬ r.security = "") (hs : r.action = "Sell") (lots : List PLot)
    (hfind : mapFind? st.portfolio r.security = some lots) :
    plotsView (processFifoStep prec keepRows st r).portfolio r.security =
      (sellLoopPF prec lots (roundTo prec r.quantity)).1 ∧
    (processFifoStep prec keepRows st r).consumed =
      st.consumed + (roundTo prec r.quantity -
        (sellLoopPF prec lots (roundTo prec r.quantity)).2) ∧
    (∀ tk2, ¬ tk2 = r.security →
      plotsView (processFifoStep prec keepRows st r).portfolio tk2 =
        plotsView st.portfolio tk2) := by
  have hbf : fifoIsBuy "Sell" = false := by decide
  simp only [processFifoStep, hne, hs, hbf, hfind, createTradeObject, if_false,
    Bool.false_eq_true, reduceIte]
  refine ⟨?_, trivial, ?_⟩
  · split_ifs with h1 h2 h3
    · simp only [List.length_eq_zero] at h1
      simp [plotsView, mapFind?_mapDelete, h1]
    · simp [plotsView, mapFind?_mapSet]
    · simp only [List.length_eq_zero] at h1
      simp [plotsView, mapFind?_mapDelete, h1]
    · simp [plotsView, mapFind?_mapSet]
  · intro tk2 htk2
    have hne2 : ¬ r.security = tk2 := fun hc => htk2 hc.symm
    split_ifs <;> simp [plotsView, mapFind?_mapDelete, mapFind?_mapSet, hne2]

theorem c7_step (prec : ℕ) (keepRows : Bool) (tk : String)
    (st : FifoState) (r : FifoRow) (hsec : r.security = tk) (hne : ¬ tk = "")
    (hq0 : 0 ≤ r.quantity) (hqe : ExactAt prec r.quantity)
    (hwf : ∀ l ∈ plotsView st.portfolio tk, 0 ≤ l.shares ∧ ExactAt prec l.shares) :
    (∀ l ∈ plotsView (processFifoStep prec keepRows st r).portfolio tk,
        0 ≤ l.shares ∧ ExactAt prec l.shares) ∧
    sumPShares (plotsView (processFifoStep prec keepRows st r).portfolio tk) =
      sumPShares (plotsView st.portfolio tk) +
        (if fifoIsBuy r.action = true then r.quantity else 0) -
        ((processFifoStep prec keepRows st r).consumed - st.consumed) := by
  subst hsec
  by_cases hb : fifoIsBuy r.action = true
  · have hs : ¬ r.action = "Sell" := by
      intro h
      rw [h] at hb
      exact absurd hb (by decide)
    obtain ⟨hv, hc, _⟩ := processFifoStep_buy prec keepRows st r hne hb hs
    constructor
    · intro l hlm
      rw [hv] at hlm
      rcases List.mem_append.mp hlm with hh | hh
      · exact hwf l hh
      · rcases List.mem_singleton.mp hh with hh2
        subst hh2
        exact ⟨hq0, hqe⟩
    · rw [hv, hc, if_pos hb]
      simp [sumPShares, createTradeObject]
  · by_cases hs : r.action = "Sell"
    · cases hfind : mapFind? st.portfolio r.security with
      | none =>
        rw [processFifoStep_sell_none prec keepRows st r hs hfind]
        exact ⟨hwf, by simp [hb]⟩
      | some lots =>
        have hwf2 : ∀ l ∈ lots, 0 ≤ l.shares ∧ ExactAt prec l.shares := by
          intro l hlm
          apply hwf
          simp [plotsView, hfind, hlm]
        have hq' : roundTo prec r.quantity = r.quantity := exactAt_roundTo hqe
        have hspec := sellLoopPF_spec prec lots (roundTo prec r.quantity) hwf2
          (by rw [hq']; exact hq0) (by rw [hq']; exact hqe)
        obtain ⟨hv, hc, _⟩ := processFifoStep_sell prec keepRows st r hne hs lots hfind
        constructor
        · intro l hlm
          rw [hv] at hlm
          exact hspec.1 l hlm
        · rw [hv, hc, if_neg hb, hspec.2.2]
          have hlots : plotsView st.portfolio r.security = lots := by
            simp [plotsView, hfind]
          rw [hlots]
          ring
    · rw [processFifoStep_other prec keepRows st r (by simpa using hb) hs]
      exact ⟨hwf, by simp [hb]⟩

theorem c7_run (prec : ℕ) (keepRows : Bool) (tk : String) (hne : ¬ tk = "") :
    ∀ (rows : List FifoRow) (st : FifoState),
      (∀ r ∈ rows, r.security = tk ∧ 0 ≤ r.quantity ∧ ExactAt prec r.quantity) →
      (∀ l ∈ plotsView st.portfolio tk, 0 ≤ l.shares ∧ ExactAt prec l.shares) →
      (∀ l ∈ plotsView (rows.foldl (processFifoStep prec keepRows) st).portfolio tk,
          0 ≤ l.shares ∧ ExactAt prec l.shares) ∧
      sumPShares (plotsView (rows.foldl (processFifoStep prec keepRows) st).portfolio tk) =
        sumPShares (plotsView st.portfolio tk) + fifoTotalBought rows -
          ((rows.foldl (processFifoStep prec keepRows) st).consumed - st.consumed) := by
  intro rows
  induction rows with
  | nil =>
    intro st _ hwf
    refine ⟨hwf, ?_⟩
    simp [fifoTotalBought]
  | cons r rest ih =>
    intro st hrows hwf
    have hr := hrows r (by simp)
    have hstep := c7_step prec keepRows tk st r hr.1 hne hr.2.1 hr.2.2 hwf
    have hih := ih (processFifoStep prec keepRows st r)
      (fun r2 h2 => hrows r2 (by simp [h2])) hstep.1
    simp only [List.foldl_cons]
    refine ⟨hih.1, ?_⟩
    rw [hih.2, hstep.2]
    have hsplit : fifoTotalBought (r :: rest) =
        (if fifoIsBuy r.action = true then r.quantity else 0) + fifoTotalBought rest := by
      by_cases hbr : fifoIsBuy r.action = true <;> simp [fifoTotalBought, hbr]
    rw [hsplit]
    ring

theorem exactAt_iff_roundTo_eq {p : ℕ} {q : ℚ} : ExactAt p q ↔ roundTo p q = q := by
  constructor
  · exact exactAt_roundTo
  · intro h
    refine ⟨qRound (q * 10 ^ p), ?_⟩
    have hp : ((10 : ℚ) ^ p) ≠ 0 := by positivity
    conv_lhs => rw [← h]
    unfold roundTo
    field_simp

/-- C7 counterexample: on c7Rows the queue ends empty (sum 0), but total
bought minus the sell volume consumed from lots is 1/1000000, so the
claimed equality fails; and a single Buy row with negative quantity
leaves a negative remaining-share sum, so the nonnegativity clause also
fails without a sign restriction. -/
theorem c7_counterexample :
    (sumPShares (plotsView (processFifo c7Rows 5 false) "A") = 0 ∧
     fifoTotalBought c7Rows - (processFifoRun c7Rows 5 false).consumed = 1 / 1000000 ∧
     ¬ sumPShares (plotsView (processFifo c7Rows 5 false) "A") =
        fifoTotalBought c7Rows - (processFifoRun c7Rows 5 false).consumed) ∧
    sumPShares (plotsView
      (processFifo [⟨"A", "Buy", -5, 1, some ⟨2023, 1⟩⟩] 5 false) "A") < 0 := by
  decide

/-- C7 amended: for a single-ticker row sequence in which every quantity
is nonnegative and an integer multiple of 10^(-precision), after every
prefix of processing the sum of remaining shares in that ticker queue
equals total shares bought minus the sell volume actually consumed from
lots, and that sum is never negative. -/
theorem c7_lot_conservation_amended (prec : ℕ) (keepRows : Bool) (tk : String)
    (rows : List FifoRow) (hne : ¬ tk = "")
    (hrows : ∀ r ∈ rows, r.security = tk ∧ 0 ≤ r.quantity ∧ ExactAt prec r.quantity) :
    ∀ l₁ l₂ : List FifoRow, rows = l₁ ++ l₂ →
      sumPShares (plotsView (processFifo l₁ prec keepRows) tk) =
        fifoTotalBought l₁ - (processFifoRun l₁ prec keepRows).consumed ∧
      0 ≤ sumPShares (plotsView (processFifo l₁ prec keepRows) tk) := by
  intro l₁ l₂ hsplit
  have h1 : ∀ r ∈ l₁, r.security = tk ∧ 0 ≤ r.quantity ∧ ExactAt prec r.quantity := by
    intro r h
    exact hrows r (by rw [hsplit]; exact List.mem_append_left _ h)
  have hinit : ∀ l ∈ plotsView (⟨[], 0⟩ : FifoState).portfolio tk,
      0 ≤ l.shares ∧ ExactAt prec l.shares := by
    simp [plotsView, mapFind?]
  have h := c7_run prec keepRows tk hne l₁ ⟨[], 0⟩ h1 hinit
  constructor
  · have h2 := h.2
    simp only [processFifo, processFifoRun]
    simp only [plotsView, mapFind?, sumPShares, List.map_nil, List.sum_nil,
      Option.getD_none] at h2
    simp only [plotsView, sumPShares] at h2 ⊢
    linarith
  · have hwf := h.1
    apply sumPShares_nonneg
    intro l hl
    exact (hwf l (by simpa [processFifo, processFifoRun] using hl)).1

/-- C7 amended, witness: Buy 2 then Sell 1 on one ticker; after the full
sequence the remaining sum is 1 = 2 bought minus 1 consumed, and it is
nonnegative. -/
theorem c7_lot_conservation_amended_witness :
    sumPShares (plotsView (processFifo [⟨"A", "Buy", 2, 1, some ⟨2023, 1⟩⟩,
        ⟨"A", "Sell", 1, 1, some ⟨2023, 2⟩⟩] 5 false) "A") =
      fifoTotalBought [⟨"A", "Buy", 2, 1, some ⟨2023, 1⟩⟩,
        ⟨"A", "Sell", 1, 1, some ⟨2023, 2⟩⟩] -
      (processFifoRun [⟨"A", "Buy", 2, 1, some ⟨2023, 1⟩⟩,
        ⟨"A", "Sell", 1, 1, some ⟨2023, 2⟩⟩] 5 false).consumed ∧
    0 ≤ sumPShares (plotsView (processFifo [⟨"A", "Buy", 2, 1, some ⟨2023, 1⟩⟩,
        ⟨"A", "Sell", 1, 1, some ⟨2023, 2⟩⟩] 5 false) "A") := by
  have h := c7_lot_conservation_amended 5 false "A"
    [⟨"A", "Buy", 2, 1, some ⟨2023, 1⟩⟩, ⟨"A", "Sell", 1, 1, some ⟨2023, 2⟩⟩]
    (by decide)
    (by
      intro r hr
      simp only [List.mem_cons, List.mem_singleton] at hr
      rcases hr with rfl | rfl | hr
      · exact ⟨rfl, by norm_num, exactAt_iff_roundTo_eq.mpr (by decide)⟩
      · exact ⟨rfl, by norm_num, exactAt_iff_roundTo_eq.mpr (by decide)⟩
      · cases hr)
  exact h [⟨"A", "Buy", 2, 1, some ⟨2023, 1⟩⟩, ⟨"A", "Sell", 1, 1, some ⟨2023, 2⟩⟩] [] rfl

theorem isDividend_ne_sell (a : String) (h : isDividendAction a = true) : ¬ a = "Sell" := by
  simp only [isDividendAction, Bool.or_eq_true, beq_iff_eq] at h
  rcases h with h | h <;> subst h <;> decide

theorem sumShares_nonneg (lots : List Lot) (h : ∀ l ∈ lots, 0 ≤ l.shares) :
    0 ≤ sumShares lots := by
  induction lots with
  | nil => simp [sumShares]
  | cons lot rest ih =>
    have h1 := h lot (by simp)
    have h2 := ih (fun l hl => h l (by simp [hl]))
    simp only [sumShares, List.map_cons, List.sum_cons] at h2 ⊢
    linarith

theorem lotSell_zero (prec : ℕ) (lots : List Lot) :
    lotSell prec lots 0 = (lots, 0, []) := by
  cases lots with
  | nil => rfl
  | cons lot rest =>
    simp [lotSell, sellLoop]

theorem lotSell_spec (prec : ℕ) (hprec : 5 ≤ prec) (lots : List Lot) :
    ∀ toSell : ℚ, (∀ l ∈ lots, 0 ≤ l.shares ∧ ExactAt 5 l.shares) →
      0 ≤ toSell → ExactAt 5 toSell →
      (∀ l ∈ (lotSell prec lots toSell).1, 0 ≤ l.shares ∧ ExactAt 5 l.shares) ∧
      0 ≤ (lotSell prec lots toSell).2.1 ∧
      sumShares (lotSell prec lots toSell).1 =
        sumShares lots - (toSell - (lotSell prec lots toSell).2.1) ∧
      (toSell ≤ sumShares lots → (lotSell prec lots toSell).2.1 = 0) := by
  induction lots with
  | nil =>
    intro toSell _ h0 _
    refine ⟨by simp [lotSell, sellLoop], by simpa [lotSell, sellLoop] using h0, ?_, ?_⟩
    · simp [lotSell, sellLoop, sumShares]
    · intro hle
      have : sumShares ([] : List Lot) = 0 := by simp [sumShares]
      rw [this] at hle
      simp only [lotSell, sellLoop]
      linarith
  | cons lot rest ih =>
    intro toSell hl h0 he
    have hlot := hl lot (by simp)
    have hrest : ∀ l ∈ rest, 0 ≤ l.shares ∧ ExactAt 5 l.shares :=
      fun l hlm => hl l (by simp [hlm])
    have havail : roundTo prec lot.shares = lot.shares :=
      exactAt_roundTo (exactAt_mono hprec hlot.2)
    have hsum : sumShares (lot :: rest) = lot.shares + sumShares rest := by
      simp [sumShares]
    by_cases hpos : 0 < toSell
    · by_cases hfull : roundTo prec lot.shares ≤ toSell
      · have he' : ExactAt 5 (toSell - lot.shares) := exactAt_sub he hlot.2
        have hts : roundTo prec (toSell - roundTo prec lot.shares) = toSell - lot.shares := by
          rw [havail]
          exact exactAt_roundTo (exactAt_mono hprec he')
        have h0' : 0 ≤ toSell - lot.shares := by
          rw [havail] at hfull
          linarith
        have hi := ih (toSell - lot.shares) hrest h0' he'
        simp only [lotSell, sellLoop, if_pos hpos, if_pos hfull, hts] at hi ⊢
        refine ⟨hi.1, hi.2.1, ?_, ?_⟩
        · rw [hi.2.2.1, hsum]
          ring
        · intro hle
          rw [hsum] at hle
          exact hi.2.2.2 (by linarith)
      · have hge : toSell < lot.shares := by
          rw [havail] at hfull
          linarith
        have hs1v : roundTo prec (lot.shares - toSell) = lot.shares - toSell :=
          exactAt_roundTo (exactAt_mono hprec (exactAt_sub hlot.2 he))
        have hs1ne : ¬ roundTo prec (lot.shares - toSell) = 0 := by
          rw [hs1v]
          intro hc
          have : lot.shares = toSell := by linarith
          linarith
        simp only [lotSell, sellLoop, if_pos hpos, if_neg hfull, if_neg hs1ne]
        refine ⟨?_, le_refl 0, ?_, fun _ => trivial⟩
        · intro l hlm
          rcases List.mem_cons.mp hlm with hh | hh
          · subst hh
            constructor
            · simp only [hs1v]
              linarith
            · simp only [hs1v]
              exact exactAt_sub hlot.2 he
          · exact hrest l hh
        · simp only [sumShares, List.map_cons, List.sum_cons, hs1v, hsum]
          ring
    · simp only [lotSell, sellLoop, if_neg hpos]
      refine ⟨hl, h0, by ring, ?_⟩
      intro _
      linarith [h0, le_of_not_lt hpos]

theorem portfolioStep_dividend_portfolio (st : PortState) (trade : Trade)
    (hd : isDividendAction trade.action = true) :
    (portfolioStep st trade).portfolio = st.portfolio := by
  simp [portfolioStep, hd]

theorem portfolioStep_other_portfolio (st : PortState) (trade : Trade)
    (hd : isDividendAction trade.action = false) (hb : isBuyAction trade.action = false)
    (hs : ¬ trade.action = "Sell") :
    (portfolioStep st trade).portfolio = st.portfolio := by
  simp [portfolioStep, hd, hb, hs]

theorem portfolioStep_buy_view (st : PortState) (trade : Trade)
    (hd : isDividendAction trade.action = false) (hb : isBuyAction trade.action = true) :
    lotsView (portfolioStep st trade).portfolio trade.ticker =
      lotsView st.portfolio trade.ticker ++
        [{ shares := trade.qty, price := trade.unitPrice, date := trade.date }] ∧
    ∀ tk, ¬ tk = trade.ticker →
      lotsView (portfolioStep st trade).portfolio tk = lotsView st.portfolio tk := by
  cases hfind : mapFind? st.portfolio trade.ticker with
  | none =>
    constructor
    · simp [portfolioStep, hd, hb, hfind, lotsView, mapFind?_mapSet]
    · intro tk htk
      have hne2 : ¬ trade.ticker = tk := fun hc => htk hc.symm
      simp [portfolioStep, hd, hb, hfind, lotsView, mapFind?_mapSet, hne2]
  | some lots =>
    constructor
    · simp [portfolioStep, hd, hb, hfind, lotsView, mapFind?_mapSet]
    · intro tk htk
      have hne2 : ¬ trade.ticker = tk := fun hc => htk hc.symm
      simp [portfolioStep, hd, hb, hfind, lotsView, mapFind?_mapSet, hne2]

theorem portfolioStep_sell_none_portfolio (st : PortState) (trade : Trade)
    (hs : trade.action = "Sell") (hfind : mapFind? st.portfolio trade.ticker = none) :
    (portfolioStep st trade).portfolio = st.portfolio := by
  have hd : isDividendAction "Sell" = false := by decide
  have hb : isBuyAction "Sell" = false := by decide
  simp [portfolioStep, hs, hd, hb, hfind]

theorem portfolioStep_sell_view (st : PortState) (trade : Trade)
    (hs : trade.action = "Sell") (lots : List Lot)
    (hfind : mapFind? st.portfolio trade.ticker = some lots) :
    lotsView (portfolioStep st trade).portfolio trade.ticker =
      (lotSell (tradePrecision trade.type) lots
        (roundTo (tradePrecision trade.type) trade.qty)).1 ∧
    ∀ tk, ¬ tk = trade.ticker →
      lotsView (portfolioStep st trade).portfolio tk = lotsView st.portfolio tk := by
  have hd : isDividendAction "Sell" = false := by decide
  have hb : isBuyAction "Sell" = false := by decide
  simp only [portfolioStep, hs, hd, hb, hfind, if_false, Bool.false_eq_true, reduceIte]
  constructor
  · split_ifs with h1
    · simp only [List.isEmpty_iff] at h1
      simp [lotsView, mapFind?_mapDelete, h1]
    · simp [lotsView, mapFind?_mapSet]
  · intro tk htk
    have hne2 : ¬ trade.ticker = tk := fun hc => htk hc.symm
    split_ifs <;> simp [lotsView, mapFind?_mapDelete, mapFind?_mapSet, hne2]

theorem reconQty_mapSet (m : List (String × Holding)) (t tk : String) (h : Holding) :
    reconQty (mapSet m t h) tk = if t = tk then h.qty else reconQty m tk := by
  simp only [reconQty, mapFind?_mapSet]
  split_ifs <;> simp

theorem getD_qty_eq_reconQty (m : List (String × Holding)) (tk : String) (d : Holding)
    (hd : d.qty = 0) : ((mapFind? m tk).getD d).qty = reconQty m tk := by
  cases hfind : mapFind? m tk <;> simp [reconQty, hfind, hd]

theorem reconQty_reconStep (m : List (String × Holding)) (trade : Trade) (tk : String) :
    reconQty (reconStep m trade) tk =
      if trade.ticker = tk then
        (if isBuyAction trade.action = true then reconQty m tk + trade.qty
         else if trade.action = "Sell" then
           (if 0 < reconQty m tk then reconQty m tk - trade.qty else reconQty m tk)
         else if trade.action = "Split" then reconQty m tk + trade.qty
         else reconQty m tk)
      else reconQty m tk := by
  simp only [reconStep]
  set m1 := (if (mapFind? m trade.ticker).isSome = true then m
    else mapSet m trade.ticker ⟨0, 0, trade.type⟩) with hm1
  have hens : ∀ tk2, reconQty m1 tk2 = reconQty m tk2 := by
    intro tk2
    rw [hm1]
    by_cases hf : (mapFind? m trade.ticker).isSome = true
    · rw [if_pos hf]
    · rw [if_neg hf, reconQty_mapSet]
      split_ifs with h
      · subst h
        cases hfind : mapFind? m trade.ticker with
        | none => simp [reconQty, hfind]
        | some v => simp [hfind] at hf
      · rfl
  have hh : ((mapFind? m1 trade.ticker).getD ⟨0, 0, trade.type⟩).qty =
      reconQty m trade.ticker := by
    rw [getD_qty_eq_reconQty m1 trade.ticker ⟨0, 0, trade.type⟩ rfl]
    exact hens trade.ticker
  by_cases hbuy : isBuyAction trade.action = true
  · simp only [hbuy, if_true, reduceIte, reconQty_mapSet]
    split_ifs with h
    · subst h
      simp [hh]
    · exact hens tk
  · by_cases hsell : trade.action = "Sell"
    · simp only [if_neg hbuy, if_pos hsell]
      by_cases hpos : 0 < ((mapFind? m1 trade.ticker).getD ⟨0, 0, trade.type⟩).qty
      · rw [if_pos hpos, reconQty_mapSet]
        rw [hh] at hpos
        split_ifs with h h2
        · subst h
          simp [hh]
        · subst h
          exact absurd hpos h2
        · exact hens tk
      · rw [if_neg hpos]
        rw [hh] at hpos
        split_ifs with h1 h2
        · subst h1
          exact absurd h2 hpos
        · exact hens tk
        · exact hens tk
    · by_cases hsplit : trade.action = "Split"
      · simp only [if_neg hbuy, if_neg hsell, if_pos hsplit]
        rw [reconQty_mapSet]
        split_ifs with h
        · subst h
          simp [hh]
        · exact hens tk
      · simp only [if_neg hbuy, if_neg hsell, if_neg hsplit]
        rw [hens tk]
        split_ifs <;> rfl

theorem roundTo_zero (p : ℕ) : roundTo p 0 = 0 := by
  rw [roundTo_eq_round]
  simp

theorem c4_step (trade : Trade) (hq0 : 0 ≤ trade.qty) (hqe : ExactAt 5 trade.qty)
    (hns : ¬ trade.action = "Split")
    (R : List (String × Holding)) (st : PortState)
    (hrel : ∀ tk, reconQty R tk = sumShares (lotsView st.portfolio tk))
    (hwf : ∀ tk, ∀ l ∈ lotsView st.portfolio tk, 0 ≤ l.shares ∧ ExactAt 5 l.shares)
    (hcov : trade.action = "Sell" → trade.qty ≤ reconQty R trade.ticker) :
    (∀ tk, reconQty (reconStep R trade) tk =
      sumShares (lotsView (portfolioStep st trade).portfolio tk)) ∧
    (∀ tk, ∀ l ∈ lotsView (portfolioStep st trade).portfolio tk,
      0 ≤ l.shares ∧ ExactAt 5 l.shares) := by
  by_cases hd : isDividendAction trade.action = true
  · have hb : isBuyAction trade.action = false := isDividend_not_buy _ hd
    have hs : ¬ trade.action = "Sell" := isDividend_ne_sell _ hd
    have hport := portfolioStep_dividend_portfolio st trade hd
    constructor
    · intro tk
      rw [reconQty_reconStep, hport]
      simp only [hb, Bool.false_eq_true, if_false, hs, hns, ite_self, reduceIte]
      exact hrel tk
    · intro tk
      rw [hport]
      exact hwf tk
  · by_cases hb : isBuyAction trade.action = true
    · have hd' : isDividendAction trade.action = false := by
        cases h : isDividendAction trade.action
        · rfl
        · exact absurd h hd
      have hbv := portfolioStep_buy_view st trade hd' hb
      constructor
      · intro tk
        rw [reconQty_reconStep]
        by_cases htk : trade.ticker = tk
        · subst htk
          rw [if_pos rfl, if_pos hb, hbv.1]
          simp only [sumShares, List.map_append, List.sum_append, List.map_cons,
            List.sum_cons, List.map_nil, List.sum_nil]
          have hr := hrel trade.ticker
          simp only [sumShares] at hr
          linarith
        · rw [if_neg htk, hbv.2 tk (fun hc => htk hc.symm)]
          exact hrel tk
      · intro tk l hl
        by_cases htk : tk = trade.ticker
        · subst htk
          rw [hbv.1] at hl
          rcases List.mem_append.mp hl with hh | hh
          · exact hwf _ l hh
          · rcases List.mem_singleton.mp hh with hh2
            subst hh2
            exact ⟨hq0, hqe⟩
        · rw [hbv.2 tk htk] at hl
          exact hwf tk l hl
    · by_cases hsell : trade.action = "Sell"
      · have hb5 : (5 : ℕ) ≤ tradePrecision trade.type := by
          unfold tradePrecision
          split_ifs <;> norm_num
        cases hfind : mapFind? st.portfolio trade.ticker with
        | none =>
          have hport := portfolioStep_sell_none_portfolio st trade hsell hfind
          have hzero : reconQty R trade.ticker = 0 := by
            rw [hrel trade.ticker]
            simp [lotsView, hfind, sumShares]
          constructor
          · intro tk
            rw [reconQty_reconStep, hport]
            by_cases htk : trade.ticker = tk
            · subst htk
              rw [if_pos rfl, if_neg hb, if_pos hsell,
                if_neg (by rw [hzero]; norm_num)]
              exact hrel _
            · rw [if_neg htk]
              exact hrel tk
          · intro tk
            rw [hport]
            exact hwf tk
        | some lots =>
          have hview := portfolioStep_sell_view st trade hsell lots hfind
          have hlots : lotsView st.portfolio trade.ticker = lots := by
            simp [lotsView, hfind]
          have hwf2 : ∀ l ∈ lots, 0 ≤ l.shares ∧ ExactAt 5 l.shares := by
            intro l hl
            exact hwf trade.ticker l (by rw [hlots]; exact hl)
          have hS : reconQty R trade.ticker = sumShares lots := by
            rw [hrel, hlots]
          have hcov2 := hcov hsell
          have hq' : roundTo (tradePrecision trade.type) trade.qty = trade.qty :=
            exactAt_roundTo (exactAt_mono hb5 hqe)
          by_cases hpos : 0 < reconQty R trade.ticker
          · have hspec := lotSell_spec (tradePrecision trade.type) hb5 lots
              trade.qty hwf2 hq0 hqe
            have hleft : (lotSell (tradePrecision trade.type) lots trade.qty).2.1 = 0 :=
              hspec.2.2.2 (by rw [← hS]; exact hcov2)
            constructor
            · intro tk
              rw [reconQty_reconStep]
              by_cases htk : trade.ticker = tk
              · subst htk
                rw [if_pos rfl, if_neg hb, if_pos hsell, if_pos hpos, hview.1, hq']
                rw [hspec.2.2.1, hleft, hS]
                ring
              · rw [if_neg htk, hview.2 tk (fun hc => htk hc.symm)]
                exact hrel tk
            · intro tk l hl
              by_cases htk : tk = trade.ticker
              · subst htk
                rw [hview.1, hq'] at hl
                exact hspec.1 l hl
              · rw [hview.2 tk htk] at hl
                exact hwf tk l hl
          · have hS0 : reconQty R trade.ticker = 0 :=
              le_antisymm (le_of_not_lt hpos)
                (by rw [hS]; exact sumShares_nonneg lots (fun l hl => (hwf2 l hl).1))
            have hqz : trade.qty = 0 := le_antisymm (by rw [← hS0]; exact hcov2) hq0
            have hzero : lotSell (tradePrecision trade.type) lots
                (roundTo (tradePrecision trade.type) trade.qty) = (lots, 0, []) := by
              rw [hqz, roundTo_zero]
              exact lotSell_zero _ lots
            constructor
            · intro tk
              rw [reconQty_reconStep]
              by_cases htk : trade.ticker = tk
              · subst htk
                rw [if_pos rfl, if_neg hb, if_pos hsell, if_neg hpos, hview.1, hzero]
                exact hS
              · rw [if_neg htk, hview.2 tk (fun hc => htk hc.symm)]
                exact hrel tk
            · intro tk l hl
              by_cases htk : tk = trade.ticker
              · subst htk
                rw [hview.1, hzero] at hl
                exact hwf2 l hl
              · rw [hview.2 tk htk] at hl
                exact hwf tk l hl
      · have hd' : isDividendAction trade.action = false := by
          cases h : isDividendAction trade.action
          · rfl
          · exact absurd h hd
        have hb' : isBuyAction trade.action = false := by
          cases h : isBuyAction trade.action
          · rfl
          · exact absurd h hb
        have hport := portfolioStep_other_portfolio st trade hd' hb' hsell
        constructor
        · intro tk
          rw [reconQty_reconStep, hport]
          simp only [hb', Bool.false_eq_true, if_false, hsell, hns, ite_self, reduceIte]
          exact hrel tk
        · intro tk
          rw [hport]
          exact hwf tk

theorem c4_run : ∀ (l : List Trade) (R : List (String × Holding)) (st : PortState),
    (∀ t ∈ l, 0 ≤ t.qty ∧ ExactAt 5 t.qty ∧ ¬ t.action = "Split") →
    (∀ tk, reconQty R tk = sumShares (lotsView st.portfolio tk)) →
    (∀ tk, ∀ lo ∈ lotsView st.portfolio tk, 0 ≤ lo.shares ∧ ExactAt 5 lo.shares) →
    sellsCoveredLoop R l = true →
    ∀ tk, reconQty (l.foldl reconStep R) tk =
      sumShares (lotsView (l.foldl portfolioStep st).portfolio tk) := by
  intro l
  induction l with
  | nil =>
    intro R st _ hrel _ _ tk
    simpa using hrel tk
  | cons t rest ih =>
    intro R st hl hrel hwf hcov
    simp only [List.foldl_cons]
    simp only [sellsCoveredLoop, Bool.and_eq_true] at hcov
    have ht := hl t (by simp)
    have hcovt : t.action = "Sell" → t.qty ≤ reconQty R t.ticker := by
      intro hs
      have h1 := hcov.1
      rw [if_pos hs] at h1
      exact of_decide_eq_true h1
    have hstep := c4_step t ht.1 ht.2.1 ht.2.2 R st hrel hwf hcovt
    exact ih (reconStep R t) (portfolioStep st t)
      (fun t2 h2 => hl t2 (by simp [h2])) hstep.1 hstep.2 hcov.2

/-- C4 counterexample: at a cutoff past all trades, proportional
average-cost reconstruction reports invested capital 150 for a ticker
whose FIFO open-lot cost total is 200, a divergence beyond any rounding
tolerance; and on an oversell the reconstructed quantity is -4 while the
FIFO matcher holds 0, so the quantity totals also disagree on
unrestricted inputs. -/
theorem c4_roundtrip_counterexample :
    (reconQty (holdingsAt c4Trades ⟨2024, 1⟩) "AAA" = 1 ∧
     reconInvested (holdingsAt c4Trades ⟨2024, 1⟩) "AAA" = 150 ∧
     sumShares (lotsView (runPortfolio c4Trades).portfolio "AAA") = 1 ∧
     sumBookValue (lotsView (runPortfolio c4Trades).portfolio "AAA") = 200 ∧
     ¬ reconInvested (holdingsAt c4Trades ⟨2024, 1⟩) "AAA" =
        sumBookValue (lotsView (runPortfolio c4Trades).portfolio "AAA")) ∧
    (reconQty (holdingsAt c4Oversell ⟨2024, 1⟩) "AAA" = -4 ∧
     sumShares (lotsView (runPortfolio c4Oversell).portfolio "AAA") = 0) := by
  decide

/-- C4 amended: with cutoff at or after every trade date, for trade
histories whose quantities are nonnegative and exact at the share
precisions, with no Split actions, and in which every sell is covered by
the quantity then held, the historical reconstruction and the live FIFO
matcher agree on the quantity held of every ticker; the invested-capital
totals do not agree in general (see the counterexample), as proportional
average-cost reduction and FIFO lot consumption price sold shares
differently. -/
theorem c4_roundtrip_quantity_amended (trades : List Trade) (now : JsDate)
    (hdate : ∀ t ∈ trades, dateLe t.date now = true)
    (ht : ∀ t ∈ trades, 0 ≤ t.qty ∧ ExactAt 5 t.qty ∧ ¬ t.action = "Split")
    (hcov : sellsCovered (sortByDate trades) = true) :
    ∀ tk, reconQty (holdingsAt trades now) tk =
      sumShares (lotsView (runPortfolio trades).portfolio tk) := by
  intro tk
  have hmem : ∀ t ∈ sortByDate trades, t ∈ trades := by
    intro t h
    exact (List.perm_insertionSort _ trades).mem_iff.mp h
  have hfilter : (sortByDate trades).filter (fun d => dateLe d.date now) =
      sortByDate trades := by
    apply List.filter_eq_self.mpr
    intro a ha
    exact hdate a (hmem a ha)
  unfold holdingsAt reconHoldings runPortfolio
  rw [hfilter]
  exact c4_run (sortByDate trades) [] ⟨[], []⟩
    (fun t h => ht t (hmem t h))
    (by intro tk2; simp [reconQty, mapFind?, lotsView, sumShares])
    (by intro tk2 lo hlo; simp [lotsView, mapFind?] at hlo)
    hcov tk

/-- C4 amended, witness: on the covered three-trade scenario both
engines report 5 shares of the ticker at a cutoff after all trades. -/
theorem c4_roundtrip_quantity_amended_witness :
    sellsCovered (sortByDate c1Trades) = true ∧
    reconQty (holdingsAt c1Trades ⟨2025, 1⟩) "AAA" =
      sumShares (lotsView (runPortfolio c1Trades).portfolio "AAA") := by
  refine ⟨by decide, ?_⟩
  exact c4_roundtrip_quantity_amended c1Trades ⟨2025, 1⟩ (by decide)
    (by
      intro t h
      simp only [c1Trades, List.mem_cons, List.not_mem_nil, or_false] at h
      rcases h with rfl | rfl | rfl
      · exact ⟨by norm_num, exactAt_iff_roundTo_eq.mpr (by decide), by decide⟩
      · exact ⟨by norm_num, exactAt_iff_roundTo_eq.mpr (by decide), by decide⟩
      · exact ⟨by norm_num, exactAt_iff_roundTo_eq.mpr (by decide), by decide⟩)
    (by decide) "AAA"
